import Mathlib

/-!
Verification of exceptions_perf_test: growable buffer and OBJ mesh builder

A shallow embedding of

* `source/noexcept/dynamic_array.h` : the class template `dynamic_array<T>`,
* `source/except/obj.cpp` : the class `OBJConsumer`,

followed by theorems about the embedded code.

Conventions of the embedding.

* `std::size_t` is the 64-bit unsigned type: a `Nat` below `2 ^ 64`, and every
  `size_type` addition or subtraction of the source is reduced modulo `2 ^ 64`.
  `std::ptrdiff_t` is the 64-bit signed type, so `max_size()` is `2 ^ 63 - 1`.
* A storage block `element_storage_t[]` is a list of slots; a slot is `none` while it is
  raw memory and `some x` once an element `x` has been constructed in it.  The null block of a
  default-constructed array is the empty list.
* Pointers into a block are offsets from `&buffer[0]`.
-/

/-! ## `dynamic_array<T>` -/

/-- The data members of `dynamic_array<T>`: the storage block, `num_elements` and
`max_num_elements`. -/
structure dynamic_array (T : Type) where
  buffer : List (Option T)
  num_elements : Nat
  max_num_elements : Nat
deriving DecidableEq, Repr

namespace dynamic_array

variable {T : Type}

/-- Number of values of `size_type` (`std::size_t`, 64 bit). -/
def SIZE_MODULUS : Nat := 2 ^ 64

/-- `max_size()`: `std::numeric_limits<difference_type>::max()`. -/
def max_size : Nat := 2 ^ 63 - 1

/-- The default constructor: null block, `num_elements = 0`, `max_num_elements = 0`. -/
def create : dynamic_array T :=
  { buffer := [], num_elements := 0, max_num_elements := 0 }

/-- `allocStorage(size)`: `new (std::nothrow) element_storage_t[size]`.  Whether the allocator
can serve a request of `size` slots is given by `alloc`; a served request yields `size` raw
slots, a refused one the null pointer (`none`). -/
def allocStorage (alloc : Nat → Bool) (size : Nat) : Option (List (Option T)) :=
  if alloc size then some (List.replicate size none) else none

/-- The loop of `destroyContent`, with the pointer `p` given as its offset from `&buffer[0]`:
`for (...; p >= &buffer[0]; --p) p->destruct();`.  The result lists the offsets on which
`destruct()` is called, in call order. -/
def destroyContent.loop (p : Int) : List Int :=
  if 0 ≤ p then p :: destroyContent.loop (p - 1) else []
termination_by (p + 1).toNat
decreasing_by omega

/-- `destroyContent()`: the loop starts at `p = &buffer[0] + num_elements`.  The result lists
the slot offsets on which `destruct()` is called, in call order. -/
def destroyContent (a : dynamic_array T) : List Int :=
  destroyContent.loop (a.num_elements : Int)

/-- The range transfer `std::move(first, first + n, d_first)` / `std::copy(...)` of
`moveContent`: slot `i` of the destination receives slot `i` of the source, for
`i = 0, ..., n - 1` in this order. -/
def transferSlots (src : List (Option T)) : Nat → List (Option T) → List (Option T)
  | 0, dst => dst
  | n + 1, dst => (transferSlots src n dst).set n (src.getD n none)

/-- `moveContent(new_buffer)`.  `nothrow_move` is `std::is_nothrow_move_constructible_v<T>`.
Returns the array after `buffer = std::move(new_buffer)` and the offsets of the old block on
which `destruct()` was called before the old block was released. -/
def moveContent (nothrow_move : Bool) (a : dynamic_array T) (new_buffer : List (Option T)) :
    dynamic_array T × List Int :=
  if nothrow_move then
    ({ a with buffer := transferSlots a.buffer a.num_elements new_buffer }, [])
  else
    ({ a with buffer := transferSlots a.buffer a.num_elements new_buffer }, a.destroyContent)

/-- `expandCapacity(new_size)`, in `size_type` arithmetic. -/
def expandCapacity (a : dynamic_array T) (new_size : Nat) : Nat :=
  if a.max_num_elements >
      (max_size + SIZE_MODULUS - a.max_num_elements / 2) % SIZE_MODULUS then
    max_size
  else
    max ((a.max_num_elements + a.max_num_elements / 2) % SIZE_MODULUS) new_size

/-- `grow(new_size)`.  Returns the `bool` result, the array afterwards and the offsets of the
released block on which `destruct()` was called. -/
def grow (nothrow_move : Bool) (alloc : Nat → Bool) (a : dynamic_array T) (new_size : Nat) :
    Bool × dynamic_array T × List Int :=
  if new_size > a.max_num_elements then
    if new_size > max_size then
      (false, a, [])
    else
      let new_capacity := a.expandCapacity new_size
      match allocStorage alloc new_capacity with
      | none => (false, a, [])
      | some new_buffer =>
        let moved := a.moveContent nothrow_move new_buffer
        (true,
          { moved.1 with max_num_elements := new_capacity, num_elements := new_size },
          moved.2)
  else
    (true, { a with num_elements := new_size }, [])

/-- `emplace_back(args...)` with `x` the element constructed from `args...`:
`grow(num_elements + 1)`, then `buffer[num_elements - 1].construct(...)`. -/
def emplace_back (nothrow_move : Bool) (alloc : Nat → Bool) (a : dynamic_array T) (x : T) :
    Bool × dynamic_array T × List Int :=
  let grown := a.grow nothrow_move alloc ((a.num_elements + 1) % SIZE_MODULUS)
  if grown.1 then
    (true,
      { grown.2.1 with
        buffer := grown.2.1.buffer.set
          ((grown.2.1.num_elements + SIZE_MODULUS - 1) % SIZE_MODULUS) (some x) },
      grown.2.2)
  else
    (false, grown.2.1, grown.2.2)

/-- `push_back(v)`: `return emplace_back(v);`. -/
def push_back (nothrow_move : Bool) (alloc : Nat → Bool) (a : dynamic_array T) (v : T) :
    Bool × dynamic_array T × List Int :=
  a.emplace_back nothrow_move alloc v

/-- `operator [](i)`: `buffer[i].v`; `none` when slot `i` is raw memory or outside the block. -/
def index (a : dynamic_array T) (i : Nat) : Option T :=
  (a.buffer.getD i none)

/-- `size()`. -/
def size (a : dynamic_array T) : Nat := a.num_elements

/-- `capacity()`. -/
def capacity (a : dynamic_array T) : Nat := a.max_num_elements

/-- A sequence of `emplace_back` calls, each with its element and with the behaviour of the
allocator during that call; returns the `bool` results in call order and the final array. -/
def emplaceAll (nothrow_move : Bool) :
    dynamic_array T → List ((Nat → Bool) × T) → List Bool × dynamic_array T
  | a, [] => ([], a)
  | a, call :: rest =>
    let r := a.emplace_back nothrow_move call.1 call.2
    let rs := emplaceAll nothrow_move r.2.1 rest
    (r.1 :: rs.1, rs.2)

/-- The state invariant `0 ≤ count ≤ capacity ≤ max_size()`. -/
def Inv (a : dynamic_array T) : Prop :=
  a.num_elements ≤ a.max_num_elements ∧ a.max_num_elements ≤ max_size

/-- The block has exactly `max_num_elements` slots. -/
def BlockOk (a : dynamic_array T) : Prop :=
  a.buffer.length = a.max_num_elements

/-- A full block of two slots holding the elements 10 and 20. -/
def sampleFull : dynamic_array Nat :=
  { buffer := [some 10, some 20], num_elements := 2, max_num_elements := 2 }

/-- An allocator that serves every request. -/
def allocAlways : Nat → Bool := fun _ => true

/-- An allocator that refuses every request. -/
def allocNever : Nat → Bool := fun _ => false

end dynamic_array

/-! ## `OBJConsumer`

Conventions of the embedding.

* `float` is a type `F` with the constants `0.0f`, `1.0f` and the subtraction of the source
  (`Zero F`, `One F`, `Sub F`); nothing else about floating point arithmetic is used.
* `int` is `Int`.  The `int` arithmetic of the source (`static_cast<int>(size(...))`,
  `size + vi`, `--vi`, `num_face_vertices++`) does not leave the 32-bit range as long as every
  container holds fewer than `2 ^ 31` entries, which the embedding takes for granted.
* `std::vector` is `List`, `push_back` / `emplace_back` append at the end.
* `std::unordered_map<face_vertex_t, int, face_vertex_hash>` is a list of key/value entries
  in insertion order; keys are compared with `operator ==` of `face_vertex_t`.  The hash only
  selects a bucket and is not part of the embedding.
* `stream.throwError(msg)` does not return: it ends the callback with an exception and leaves
  the consumer as it is at that point.  `stream.warn(msg)` records `msg` and returns.
* An access outside a container (`v[vi]`, `face_vertices[i]`) is undefined behaviour.
* `int face_vertices[MAX_FACE_VERTICES]` is a vector of exactly seven `int`s.
-/

/-- The type `float3`: three coordinates. -/
structure float3 (F : Type) where
  x : F
  y : F
  z : F
deriving DecidableEq, Repr

/-- The type `float2`: two coordinates. -/
structure float2 (F : Type) where
  x : F
  y : F
deriving DecidableEq, Repr

/-- Key of the vertex map: `struct face_vertex_t { int v, n, t; }`; the derived equality is
the componentwise `operator ==` of the source. -/
structure face_vertex_t where
  v : Int
  n : Int
  t : Int
deriving DecidableEq, Repr

/-- The result type `OBJ::Triangles`, in the order of the braced initialiser of `finish()`. -/
structure OBJ.Triangles (F : Type) where
  positions : List (float3 F)
  normals : List (float3 F)
  texcoords : List (float2 F)
  triangles : List (Int × Int × Int)
deriving DecidableEq, Repr

/-- What a callback does: it returns (`done`), it leaves through `stream.throwError`
(`thrown`), or it runs into undefined behaviour.  `done` and `thrown` carry the consumer as the
callback leaves it and the messages passed to `stream.warn`. -/
inductive Outcome (σ : Type) where
  | done (s : σ) (warnings : List String)
  | thrown (s : σ) (warnings : List String) (message : String)
  | undefined
deriving DecidableEq, Repr

/-- The consumer a callback leaves behind, when there is one. -/
def Outcome.state? {σ : Type} : Outcome σ → Option σ
  | .done s _ => some s
  | .thrown s _ _ => some s
  | .undefined => none

/-- The message of the exception with which a callback leaves, when it throws. -/
def Outcome.message? {σ : Type} : Outcome σ → Option String
  | .done _ _ => none
  | .thrown _ _ message => some message
  | .undefined => none

/-- `static constexpr int MAX_FACE_VERTICES = 7;`. -/
abbrev MAX_FACE_VERTICES : Nat := 7

/-- The data members of `OBJConsumer`. -/
structure OBJConsumer (F : Type) where
  v : List (float3 F)
  vn : List (float3 F)
  vt : List (float2 F)
  vertex_map : List (face_vertex_t × Int)
  positions : List (float3 F)
  normals : List (float3 F)
  texcoords : List (float2 F)
  triangles : List (Int × Int × Int)
  face_vertices : Mathlib.Vector Int MAX_FACE_VERTICES
  num_face_vertices : Int
deriving DecidableEq

namespace OBJConsumer

variable {F : Type}

/-- The constructor `OBJConsumer()`: `vn {{0, 0, 0}}`, `vt {{0, 0}}`, `num_face_vertices = 0`,
everything else empty.  `face_vertices` has no initialiser; `garbage` is what it holds. -/
def create [Zero F] (garbage : Mathlib.Vector Int MAX_FACE_VERTICES) : OBJConsumer F :=
  { v := [], vn := [⟨0, 0, 0⟩], vt := [⟨0, 0⟩], vertex_map := [],
    positions := [], normals := [], texcoords := [], triangles := [],
    face_vertices := garbage, num_face_vertices := 0 }

/-- The read `xs[i]` of a vector with an `int` index; `none` outside the vector. -/
def readAt {α : Type} (xs : List α) (i : Int) : Option α :=
  if 0 ≤ i then xs[i.toNat]? else none

/-- The read `face_vertices[i]`; `none` outside the array. -/
def faceAt (c : OBJConsumer F) (i : Int) : Option Int :=
  if h : 0 ≤ i ∧ i < MAX_FACE_VERTICES then some (c.face_vertices.get ⟨i.toNat, by omega⟩)
  else none

/-- `vertex_map.try_emplace(key, value)`: the map afterwards, `fv->second`, and `inserted`. -/
def try_emplace (m : List (face_vertex_t × Int)) (key : face_vertex_t) (value : Int) :
    List (face_vertex_t × Int) × Int × Bool :=
  match m.lookup key with
  | some found => (m, found, false)
  | none => (m ++ [(key, value)], value, true)

/-- `consumeVertex(stream, x, y, z)`. -/
def consumeVertex (c : OBJConsumer F) (x y z : F) : Outcome (OBJConsumer F) :=
  .done { c with v := c.v ++ [⟨x, y, z⟩] } []

/-- `consumeVertex(stream, x, y, z, w)`. -/
def consumeVertexWeighted (c : OBJConsumer F) (_x _y _z _w : F) : Outcome (OBJConsumer F) :=
  .thrown c [] "weighted vertex coordinates are not supported"

/-- `consumeNormal(stream, x, y, z)`. -/
def consumeNormal (c : OBJConsumer F) (x y z : F) : Outcome (OBJConsumer F) :=
  .done { c with vn := c.vn ++ [⟨x, y, z⟩] } []

/-- `consumeTexcoord(stream, u)`. -/
def consumeTexcoord1D (c : OBJConsumer F) (_u : F) : Outcome (OBJConsumer F) :=
  .thrown c [] "1D texture coordinates are not supported"

/-- `consumeTexcoord(stream, u, v)`. -/
def consumeTexcoord [One F] [Sub F] (c : OBJConsumer F) (u v : F) : Outcome (OBJConsumer F) :=
  .done { c with vt := c.vt ++ [⟨u, 1 - v⟩] } []

/-- `consumeTexcoord(stream, u, v, w)`. -/
def consumeTexcoord3D (c : OBJConsumer F) (_u _v _w : F) : Outcome (OBJConsumer F) :=
  .thrown c [] "3D texture coordinates are not supported"

/-- Lines 101-110 of `consumeFaceVertex`: the key `{ vi, ni, ti }` after the three index
adjustments. -/
def resolve (c : OBJConsumer F) (vi ni ti : Int) : face_vertex_t :=
  { v := if vi < 0 then (c.v.length : Int) + vi else vi - 1,
    n := if ni < 0 then (c.vn.length : Int) + ni else ni,
    t := if ti < 0 then (c.vt.length : Int) + ti else ti }

/-- Lines 112-119 of `consumeFaceVertex`: `vertex_map.try_emplace(key, size(positions))` and,
when the key was inserted, the three `push_back`s of `v[vi]`, `vn[ni]`, `vt[ti]`.  Returns the
consumer afterwards and `fv->second`; `none` when one of the three reads is outside its
vector. -/
def assemble (c : OBJConsumer F) (key : face_vertex_t) : Option (OBJConsumer F × Int) :=
  let emplaced := try_emplace c.vertex_map key (c.positions.length : Int)
  if emplaced.2.2 then
    match readAt c.v key.v, readAt c.vn key.n, readAt c.vt key.t with
    | some p, some n, some t =>
      some ({ c with
              vertex_map := emplaced.1,
              positions := c.positions ++ [p],
              normals := c.normals ++ [n],
              texcoords := c.texcoords ++ [t] }, emplaced.2.1)
    | _, _, _ => none
  else
    some ({ c with vertex_map := emplaced.1 }, emplaced.2.1)

/-- Lines 121-123 of `consumeFaceVertex`: the check against `MAX_FACE_VERTICES` and
`face_vertices[num_face_vertices++] = fv->second`, with `index` for `fv->second`. -/
def pushFaceVertex (c : OBJConsumer F) (index : Int) : Outcome (OBJConsumer F) :=
  if h7 : c.num_face_vertices ≥ MAX_FACE_VERTICES then
    .thrown c [] "this face has too many vertices"
  else if h0 : 0 ≤ c.num_face_vertices then
    .done { c with
      face_vertices := c.face_vertices.set ⟨c.num_face_vertices.toNat, by omega⟩ index,
      num_face_vertices := c.num_face_vertices + 1 } []
  else
    .undefined

/-- `consumeFaceVertex(stream, vi, ni, ti)`: index resolution (`resolve`), dedup insert
(`assemble`), then the face array (`pushFaceVertex`). -/
def consumeFaceVertex (c : OBJConsumer F) (vi ni ti : Int) : Outcome (OBJConsumer F) :=
  match c.assemble (c.resolve vi ni ti) with
  | none => .undefined
  | some (c1, index) => c1.pushFaceVertex index

/-- The entry `face_vertices[i]` for an offset `i` inside the array (and 0 for any other
`i`). -/
def faceVertex (c : OBJConsumer F) (i : Nat) : Int :=
  if h : i < MAX_FACE_VERTICES then c.face_vertices.get ⟨i, h⟩ else 0

/-- The loop `for (int i = 2; i < num_face_vertices; ++i) triangles.push_back(...)` of
`finishFace`, entered with counter `i` and triangle list `tris`; the first argument is the
number of iterations still to run, `num_face_vertices - i`. -/
def finishFace.loop (c : OBJConsumer F) :
    Nat → Int → List (Int × Int × Int) → Option (List (Int × Int × Int))
  | 0, _, tris => some tris
  | k + 1, i, tris =>
    match c.faceAt 0, c.faceAt (i - 1), c.faceAt i with
    | some a, some b, some d => finishFace.loop c k (i + 1) (tris ++ [(a, b, d)])
    | _, _, _ => none

/-- `finishFace(stream)`. -/
def finishFace (c : OBJConsumer F) : Outcome (OBJConsumer F) :=
  if c.num_face_vertices < 3 then
    .thrown c [] "face must have at least three vertices"
  else
    match finishFace.loop c (c.num_face_vertices - 2).toNat 2 c.triangles with
    | some tris => .done { c with triangles := tris, num_face_vertices := 0 } []
    | none => .undefined

/-- `consumeObjectName(stream, name)`. -/
def consumeObjectName (c : OBJConsumer F) (_name : String) : Outcome (OBJConsumer F) :=
  .done c []

/-- `consumeGroupName(stream, name)`. -/
def consumeGroupName (c : OBJConsumer F) (_name : String) : Outcome (OBJConsumer F) :=
  .done c []

/-- `finishGroupAssignment(stream)`. -/
def finishGroupAssignment (c : OBJConsumer F) : Outcome (OBJConsumer F) :=
  .done c []

/-- `consumeSmoothingGroup(stream, n)`. -/
def consumeSmoothingGroup (c : OBJConsumer F) (_n : Int) : Outcome (OBJConsumer F) :=
  .done c ["smoothing groups are ignored!"]

/-- `consumeMtlLib(stream, name)`. -/
def consumeMtlLib (c : OBJConsumer F) (_name : String) : Outcome (OBJConsumer F) :=
  .done c ["materials are ignored!"]

/-- `consumeUseMtl(stream, name)`. -/
def consumeUseMtl (c : OBJConsumer F) (_name : String) : Outcome (OBJConsumer F) :=
  .done c ["materials are ignored!"]

/-- `finish()`: the four vectors are moved into the result. -/
def finish (c : OBJConsumer F) : OBJ.Triangles F :=
  { positions := c.positions, normals := c.normals, texcoords := c.texcoords,
    triangles := c.triangles }

end OBJConsumer

/-- One call of a callback of `OBJConsumer` by the reader, with its arguments. -/
inductive Callback (F : Type) where
  | vertex (x y z : F)
  | vertexWeighted (x y z w : F)
  | normal (x y z : F)
  | texcoord1D (u : F)
  | texcoord (u v : F)
  | texcoord3D (u v w : F)
  | faceVertex (vi ni ti : Int)
  | finishFace
  | objectName (name : String)
  | groupName (name : String)
  | finishGroupAssignment
  | smoothingGroup (n : Int)
  | mtlLib (name : String)
  | useMtl (name : String)

namespace OBJConsumer

variable {F : Type}

/-- The callback `cb` invoked on the consumer `c`. -/
def step [One F] [Sub F] (c : OBJConsumer F) : Callback F → Outcome (OBJConsumer F)
  | .vertex x y z => c.consumeVertex x y z
  | .vertexWeighted x y z w => c.consumeVertexWeighted x y z w
  | .normal x y z => c.consumeNormal x y z
  | .texcoord1D u => c.consumeTexcoord1D u
  | .texcoord u v => c.consumeTexcoord u v
  | .texcoord3D u v w => c.consumeTexcoord3D u v w
  | .faceVertex vi ni ti => c.consumeFaceVertex vi ni ti
  | .finishFace => c.finishFace
  | .objectName name => c.consumeObjectName name
  | .groupName name => c.consumeGroupName name
  | .finishGroupAssignment => c.finishGroupAssignment
  | .smoothingGroup n => c.consumeSmoothingGroup n
  | .mtlLib name => c.consumeMtlLib name
  | .useMtl name => c.consumeUseMtl name

/-- A sequence of callbacks in file order, as the reader drives them: the first callback that
throws or is undefined ends the sequence; warnings accumulate. -/
def run [One F] [Sub F] : OBJConsumer F → List (Callback F) → Outcome (OBJConsumer F)
  | c, [] => .done c []
  | c, cb :: rest =>
    match c.step cb with
    | .done c1 ws =>
      match run c1 rest with
      | .done c2 ws2 => .done c2 (ws ++ ws2)
      | .thrown c2 ws2 msg => .thrown c2 (ws ++ ws2) msg
      | .undefined => .undefined
    | .thrown c1 ws msg => .thrown c1 ws msg
    | .undefined => .undefined

/-- The invariant of the consumer: the vertex map holds pairwise different keys, its `k`-th
entry (in insertion order) has the value `k`, the three assembled vectors are as long as the
map, `0 ≤ num_face_vertices ≤ MAX_FACE_VERTICES`, the live entries of `face_vertices` and all
triangle indices are assembled indices, and `vn[0]`, `vt[0]` are the zero defaults. -/
structure Inv [Zero F] (c : OBJConsumer F) : Prop where
  map_values : c.vertex_map.map Prod.snd
    = (List.range c.vertex_map.length).map (fun i : Nat => (i : Int))
  map_keys : (c.vertex_map.map Prod.fst).Nodup
  len_positions : c.positions.length = c.vertex_map.length
  len_normals : c.normals.length = c.vertex_map.length
  len_texcoords : c.texcoords.length = c.vertex_map.length
  num_nonneg : 0 ≤ c.num_face_vertices
  num_le : c.num_face_vertices ≤ MAX_FACE_VERTICES
  face_range : ∀ i : Fin MAX_FACE_VERTICES, (i.val : Int) < c.num_face_vertices →
    0 ≤ c.face_vertices.get i ∧ c.face_vertices.get i < c.positions.length
  tri_range : ∀ t ∈ c.triangles,
    (0 ≤ t.1 ∧ t.1 < c.positions.length) ∧ (0 ≤ t.2.1 ∧ t.2.1 < c.positions.length) ∧
      (0 ≤ t.2.2 ∧ t.2.2 < c.positions.length)
  vn_default : c.vn[0]? = some ⟨0, 0, 0⟩
  vt_default : c.vt[0]? = some ⟨0, 0⟩

/-- Correspondence of the assembled vectors with the raw lists: for every entry `(key, i)` of
the vertex map, the reads `v[key.v]`, `vn[key.n]`, `vt[key.t]` are inside their vectors and
`positions[i]`, `normals[i]`, `texcoords[i]` hold the values read there. -/
def Assembled (c : OBJConsumer F) : Prop :=
  ∀ k i, (k, i) ∈ c.vertex_map →
    ∃ p n t, readAt c.v k.v = some p ∧ readAt c.vn k.n = some n ∧ readAt c.vt k.t = some t ∧
      readAt c.positions i = some p ∧ readAt c.normals i = some n ∧
      readAt c.texcoords i = some t

/-- The keys `{ vi, ni, ti }` that the `consumeFaceVertex` calls of a callback sequence hand to
`vertex_map.try_emplace`, in call order; each key is resolved in the state in which its call
starts, and the sequence ends at the first callback that does not return. -/
def resolvedKeys [One F] [Sub F] : OBJConsumer F → List (Callback F) → List face_vertex_t
  | _, [] => []
  | c, cb :: rest =>
    let here : List face_vertex_t :=
      match cb with
      | .faceVertex vi ni ti => [c.resolve vi ni ti]
      | _ => []
    match c.step cb with
    | .done c1 _ => here ++ resolvedKeys c1 rest
    | _ => here

/-- The pairwise different keys of a key sequence in order of first occurrence, appended to the
keys `seen` so far. -/
def firstSeen : List face_vertex_t → List face_vertex_t → List face_vertex_t
  | seen, [] => seen
  | seen, k :: ks => if k ∈ seen then firstSeen seen ks else firstSeen (seen ++ [k]) ks

/-- The consumer after `v 1 2 3` on a new consumer whose face array holds zeros. -/
def sampleOneVertex : OBJConsumer Int :=
  { v := [⟨1, 2, 3⟩], vn := [⟨0, 0, 0⟩], vt := [⟨0, 0⟩], vertex_map := [],
    positions := [], normals := [], texcoords := [], triangles := [],
    face_vertices := Mathlib.Vector.replicate 7 0, num_face_vertices := 0 }

/-- The consumer `sampleOneVertex` after the face vertex `1` (or `-1`). -/
def sampleOneFace : OBJConsumer Int :=
  { v := [⟨1, 2, 3⟩], vn := [⟨0, 0, 0⟩], vt := [⟨0, 0⟩], vertex_map := [(⟨0, 0, 0⟩, 0)],
    positions := [⟨1, 2, 3⟩], normals := [⟨0, 0, 0⟩], texcoords := [⟨0, 0⟩], triangles := [],
    face_vertices := Mathlib.Vector.replicate 7 0, num_face_vertices := 1 }

/-- The consumer `sampleOneFace` after a second face vertex `-1`. -/
def sampleTwoFace : OBJConsumer Int :=
  { sampleOneFace with num_face_vertices := 2 }

/-- A consumer with the four assembled vertices of a quad in its face array. -/
def sampleQuad : OBJConsumer Int :=
  { v := [⟨0, 0, 0⟩, ⟨1, 0, 0⟩, ⟨1, 1, 0⟩, ⟨0, 1, 0⟩], vn := [⟨0, 0, 0⟩], vt := [⟨0, 0⟩],
    vertex_map := [(⟨0, 0, 0⟩, 0), (⟨1, 0, 0⟩, 1), (⟨2, 0, 0⟩, 2), (⟨3, 0, 0⟩, 3)],
    positions := [⟨0, 0, 0⟩, ⟨1, 0, 0⟩, ⟨1, 1, 0⟩, ⟨0, 1, 0⟩],
    normals := [⟨0, 0, 0⟩, ⟨0, 0, 0⟩, ⟨0, 0, 0⟩, ⟨0, 0, 0⟩],
    texcoords := [⟨0, 0⟩, ⟨0, 0⟩, ⟨0, 0⟩, ⟨0, 0⟩], triangles := [],
    face_vertices := ⟨[0, 1, 2, 3, 0, 0, 0], rfl⟩,
    num_face_vertices := 4 }

/-- The consumer `sampleQuad` after `finishFace`. -/
def sampleQuadDone : OBJConsumer Int :=
  { sampleQuad with triangles := [(0, 1, 2), (0, 2, 3)], num_face_vertices := 0 }

/-- Two vertices and a face line whose first seven corners all name the first vertex. -/
def sampleSevenCallbacks : List (Callback Int) :=
  [.vertex 1 2 3, .vertex 4 5 6,
   .faceVertex 1 0 0, .faceVertex 1 0 0, .faceVertex 1 0 0, .faceVertex 1 0 0,
   .faceVertex 1 0 0, .faceVertex 1 0 0, .faceVertex 1 0 0]

/-- The consumer after `sampleSevenCallbacks`: seven face vertices, one assembled vertex. -/
def sampleSeven : OBJConsumer Int :=
  { v := [⟨1, 2, 3⟩, ⟨4, 5, 6⟩], vn := [⟨0, 0, 0⟩], vt := [⟨0, 0⟩],
    vertex_map := [(⟨0, 0, 0⟩, 0)],
    positions := [⟨1, 2, 3⟩], normals := [⟨0, 0, 0⟩], texcoords := [⟨0, 0⟩], triangles := [],
    face_vertices := Mathlib.Vector.replicate 7 0, num_face_vertices := 7 }

/-- The consumer `sampleSeven` as an eighth face vertex `2` leaves it. -/
def sampleSevenThrown : OBJConsumer Int :=
  { sampleSeven with
    vertex_map := [(⟨0, 0, 0⟩, 0), (⟨1, 0, 0⟩, 1)],
    positions := [⟨1, 2, 3⟩, ⟨4, 5, 6⟩], normals := [⟨0, 0, 0⟩, ⟨0, 0, 0⟩],
    texcoords := [⟨0, 0⟩, ⟨0, 0⟩] }

/-- The callbacks of `v 0 0 0`, `v 1 0 0`, `v 1 1 0`, `v 0 1 0`, `f 1 2 3 4`. -/
def sampleQuadCallbacks : List (Callback Int) :=
  [.vertex 0 0 0, .vertex 1 0 0, .vertex 1 1 0, .vertex 0 1 0,
   .faceVertex 1 0 0, .faceVertex 2 0 0, .faceVertex 3 0 0, .faceVertex 4 0 0, .finishFace]

end OBJConsumer

/-! ## Theorems about `dynamic_array<T>` -/

namespace dynamic_array

variable {T : Type}

theorem size_arith (n : Nat) (h : n ≤ max_size) :
    (n + 1) % SIZE_MODULUS = n + 1 ∧ (n + 1 + SIZE_MODULUS - 1) % SIZE_MODULUS = n := by
  unfold max_size at h
  unfold SIZE_MODULUS
  omega

theorem expandCapacity_eq (a : dynamic_array T) (r : Nat) (h : a.max_num_elements ≤ max_size) :
    a.expandCapacity r =
      if a.max_num_elements > max_size - a.max_num_elements / 2 then max_size
      else max (a.max_num_elements + a.max_num_elements / 2) r := by
  unfold expandCapacity
  unfold max_size at *
  unfold SIZE_MODULUS
  have h1 : (2 ^ 63 - 1 + 2 ^ 64 - a.max_num_elements / 2) % 2 ^ 64
      = 2 ^ 63 - 1 - a.max_num_elements / 2 := by omega
  rw [h1]
  by_cases hc : a.max_num_elements > 2 ^ 63 - 1 - a.max_num_elements / 2
  · rw [if_pos hc, if_pos hc]
  · have h2 : (a.max_num_elements + a.max_num_elements / 2) % 2 ^ 64
        = a.max_num_elements + a.max_num_elements / 2 := by omega
    rw [if_neg hc, if_neg hc, h2]

theorem expandCapacity_bounds (a : dynamic_array T) (r : Nat)
    (h : a.max_num_elements ≤ max_size) (hr : r ≤ max_size) :
    r ≤ a.expandCapacity r ∧ a.max_num_elements ≤ a.expandCapacity r ∧
      a.expandCapacity r ≤ max_size := by
  rw [expandCapacity_eq a r h]
  unfold max_size at *
  split_ifs with hc
  · omega
  · simp only [gt_iff_lt, not_lt] at hc
    refine ⟨le_max_right _ _, ?_, ?_⟩
    · exact le_trans (Nat.le_add_right _ _) (le_max_left _ _)
    · apply max_le <;> omega

theorem emplace_back_fits (nm : Bool) (alloc : Nat → Bool) (a : dynamic_array T) (x : T)
    (h : a.Inv) (hfit : a.num_elements + 1 ≤ a.max_num_elements) :
    a.emplace_back nm alloc x =
      (true, { a with num_elements := a.num_elements + 1,
                      buffer := a.buffer.set a.num_elements (some x) }, []) := by
  obtain ⟨h1, h2⟩ := h
  obtain ⟨e1, e2⟩ := size_arith a.num_elements (le_trans h1 h2)
  have hn : ¬ (a.num_elements + 1 > a.max_num_elements) := by omega
  simp only [emplace_back, grow, e1, e2, hn, if_false, if_true]

theorem emplace_back_too_large (nm : Bool) (alloc : Nat → Bool) (a : dynamic_array T) (x : T)
    (h : a.Inv) (hbig : a.num_elements + 1 > max_size) :
    a.emplace_back nm alloc x = (false, a, []) := by
  obtain ⟨h1, h2⟩ := h
  obtain ⟨e1, _⟩ := size_arith a.num_elements (le_trans h1 h2)
  have hn : a.num_elements + 1 > a.max_num_elements := by omega
  simp [emplace_back, grow, e1, hn, hbig]

theorem emplace_back_alloc_fails (nm : Bool) (alloc : Nat → Bool) (a : dynamic_array T) (x : T)
    (h : a.Inv) (hn : a.num_elements + 1 > a.max_num_elements)
    (hal : alloc (a.expandCapacity (a.num_elements + 1)) = false) :
    a.emplace_back nm alloc x = (false, a, []) := by
  obtain ⟨h1, h2⟩ := h
  obtain ⟨e1, _⟩ := size_arith a.num_elements (le_trans h1 h2)
  by_cases hbig : a.num_elements + 1 > max_size
  · simp [emplace_back, grow, e1, hn, hbig]
  · simp [emplace_back, grow, e1, hn, hbig, allocStorage, hal]

theorem emplace_back_realloc (nm : Bool) (alloc : Nat → Bool) (a : dynamic_array T) (x : T)
    (h : a.Inv) (hn : a.num_elements + 1 > a.max_num_elements)
    (hsmall : a.num_elements + 1 ≤ max_size)
    (hal : alloc (a.expandCapacity (a.num_elements + 1)) = true) :
    a.emplace_back nm alloc x =
      (true,
        { buffer := (transferSlots a.buffer a.num_elements
              (List.replicate (a.expandCapacity (a.num_elements + 1)) none)).set
                a.num_elements (some x),
          num_elements := a.num_elements + 1,
          max_num_elements := a.expandCapacity (a.num_elements + 1) },
        if nm then [] else a.destroyContent) := by
  obtain ⟨h1, h2⟩ := h
  obtain ⟨e1, e2⟩ := size_arith a.num_elements (le_trans h1 h2)
  have hbig : ¬ (a.num_elements + 1 > max_size) := by omega
  have e3 : a.num_elements % SIZE_MODULUS = a.num_elements := by
    unfold max_size at h2
    unfold SIZE_MODULUS
    omega
  cases nm <;>
    simp [emplace_back, grow, e1, e2, e3, hn, hbig, allocStorage, hal, moveContent]

theorem emplace_back_step (nm : Bool) (alloc : Nat → Bool) (a : dynamic_array T) (x : T)
    (h : a.Inv) :
    (a.emplace_back nm alloc x).2.1.Inv ∧
    ((a.emplace_back nm alloc x).1 = true →
      (a.emplace_back nm alloc x).2.1.num_elements = a.num_elements + 1 ∧
      a.max_num_elements ≤ (a.emplace_back nm alloc x).2.1.max_num_elements) ∧
    ((a.emplace_back nm alloc x).1 = false → (a.emplace_back nm alloc x).2.1 = a) := by
  by_cases hfit : a.num_elements + 1 ≤ a.max_num_elements
  · rw [emplace_back_fits nm alloc a x h hfit]
    obtain ⟨_, h2⟩ := h
    exact ⟨⟨hfit, h2⟩, fun _ => ⟨rfl, le_refl _⟩, fun hf => by simp at hf⟩
  · have hn : a.num_elements + 1 > a.max_num_elements := by omega
    by_cases hbig : a.num_elements + 1 > max_size
    · rw [emplace_back_too_large nm alloc a x h hbig]
      exact ⟨h, fun hf => by simp at hf, fun _ => rfl⟩
    · have hsmall : a.num_elements + 1 ≤ max_size := by omega
      cases hal : alloc (a.expandCapacity (a.num_elements + 1))
      · rw [emplace_back_alloc_fails nm alloc a x h hn hal]
        exact ⟨h, fun hf => by simp at hf, fun _ => rfl⟩
      · rw [emplace_back_realloc nm alloc a x h hn hsmall hal]
        obtain ⟨b1, b2, b3⟩ := expandCapacity_bounds a (a.num_elements + 1) h.2 hsmall
        exact ⟨⟨b1, b3⟩, fun _ => ⟨rfl, b2⟩, fun hf => by simp at hf⟩

theorem emplaceAll_inv (nm : Bool) (calls : List ((Nat → Bool) × T)) :
    ∀ a : dynamic_array T, a.Inv → (emplaceAll nm a calls).2.Inv := by
  induction calls with
  | nil => intro a h; exact h
  | cons call rest ih =>
    intro a h
    exact ih _ (emplace_back_step nm call.1 a call.2 h).1

theorem emplaceAll_size (nm : Bool) (calls : List ((Nat → Bool) × T)) :
    ∀ a : dynamic_array T, a.Inv →
      (emplaceAll nm a calls).2.num_elements
        = a.num_elements + (emplaceAll nm a calls).1.count true := by
  induction calls with
  | nil => intro a _; simp [emplaceAll]
  | cons call rest ih =>
    intro a h
    obtain ⟨hi, ht, hf⟩ := emplace_back_step nm call.1 a call.2 h
    have e := ih _ hi
    simp only [emplaceAll]
    rw [e]
    cases hr : (a.emplace_back nm call.1 call.2).1
    · rw [hf hr]; simp
    · rw [(ht hr).1]; simp; omega

theorem create_inv : (create : dynamic_array T).Inv := by
  simp [Inv, create]

theorem transferSlots_length (src : List (Option T)) (n : Nat) (dst : List (Option T)) :
    (transferSlots src n dst).length = dst.length := by
  induction n with
  | zero => rfl
  | succ n ih => simp [transferSlots, ih]

theorem transferSlots_getD (src dst : List (Option T)) (n : Nat) (hn : n ≤ dst.length) :
    ∀ i, i < n → (transferSlots src n dst).getD i none = src.getD i none := by
  induction n with
  | zero => intro i hi; omega
  | succ n ih =>
    intro i hi
    have hlen : n < (transferSlots src n dst).length := by
      rw [transferSlots_length]; omega
    by_cases hin : i = n
    · subst hin
      simp [transferSlots, List.getD_eq_getElem?_getD, List.getElem?_set, hlen]
    · have hlt : i < n := by omega
      have := ih (by omega) i hlt
      simp only [transferSlots, List.getD_eq_getElem?_getD] at this ⊢
      rw [List.getElem?_set_ne (by omega)]
      exact this

theorem create_blockOk : (create : dynamic_array T).BlockOk := rfl

theorem emplace_back_blockOk (nm : Bool) (alloc : Nat → Bool) (a : dynamic_array T) (x : T)
    (h : a.Inv) (hb : a.BlockOk) : (a.emplace_back nm alloc x).2.1.BlockOk := by
  by_cases hfit : a.num_elements + 1 ≤ a.max_num_elements
  · rw [emplace_back_fits nm alloc a x h hfit]
    simpa [BlockOk] using hb
  · have hn : a.num_elements + 1 > a.max_num_elements := by omega
    by_cases hbig : a.num_elements + 1 > max_size
    · rw [emplace_back_too_large nm alloc a x h hbig]; exact hb
    · have hsmall : a.num_elements + 1 ≤ max_size := by omega
      cases hal : alloc (a.expandCapacity (a.num_elements + 1))
      · rw [emplace_back_alloc_fails nm alloc a x h hn hal]; exact hb
      · rw [emplace_back_realloc nm alloc a x h hn hsmall hal]
        simp [BlockOk, transferSlots_length]

theorem emplaceAll_blockOk (nm : Bool) (calls : List ((Nat → Bool) × T)) :
    ∀ a : dynamic_array T, a.Inv → a.BlockOk → (emplaceAll nm a calls).2.BlockOk := by
  induction calls with
  | nil => intro a _ hb; exact hb
  | cons call rest ih =>
    intro a h hb
    exact ih _ (emplace_back_step nm call.1 a call.2 h).1
      (emplace_back_blockOk nm call.1 a call.2 h hb)

theorem destroyContent_loop_eq (n : Nat) :
    destroyContent.loop (n : Int) = (List.range (n + 1)).reverse.map (fun i : Nat => (i : Int)) := by
  induction n with
  | zero =>
    rw [destroyContent.loop]
    simp
    rw [destroyContent.loop]
    simp [List.range_succ]
  | succ n ih =>
    rw [destroyContent.loop]
    have h0 : (0 : Int) ≤ ((n + 1 : Nat) : Int) := by omega
    have h1 : ((n + 1 : Nat) : Int) - 1 = (n : Int) := by omega
    rw [if_pos h0, h1, ih, List.range_succ (n := n + 1)]
    simp

theorem destroyContent_eq (a : dynamic_array T) :
    a.destroyContent
      = (List.range (a.num_elements + 1)).reverse.map (fun i : Nat => (i : Int)) :=
  destroyContent_loop_eq a.num_elements

theorem sampleFull_inv : sampleFull.Inv := by
  simp [Inv, sampleFull, max_size]

/-- C4: under `count ≤ capacity ≤ max_size()`, `emplace_back` returns `false` exactly when
`count + 1 > capacity` and either `count + 1 > max_size()` or the allocation of the new block
fails; when it returns `false` the array (block contents, size, capacity) is the one before the
call; `push_back` is `emplace_back`. -/
theorem emplace_back_false_iff_growth_fails (nm : Bool) (alloc : Nat → Bool)
    (a : dynamic_array T) (x : T) (h : a.Inv) :
    ((a.emplace_back nm alloc x).1 = false ↔
      (a.num_elements + 1 > a.max_num_elements ∧
        (a.num_elements + 1 > max_size ∨
          allocStorage (T := T) alloc (a.expandCapacity (a.num_elements + 1)) = none))) ∧
    ((a.emplace_back nm alloc x).1 = false → (a.emplace_back nm alloc x).2.1 = a) ∧
    a.push_back nm alloc x = a.emplace_back nm alloc x := by
  refine ⟨?_, (emplace_back_step nm alloc a x h).2.2, rfl⟩
  by_cases hfit : a.num_elements + 1 ≤ a.max_num_elements
  · rw [emplace_back_fits nm alloc a x h hfit]
    constructor
    · intro hf; simp at hf
    · rintro ⟨hn, _⟩; omega
  · have hn : a.num_elements + 1 > a.max_num_elements := by omega
    by_cases hbig : a.num_elements + 1 > max_size
    · rw [emplace_back_too_large nm alloc a x h hbig]
      exact ⟨fun _ => ⟨hn, Or.inl hbig⟩, fun _ => rfl⟩
    · have hsmall : a.num_elements + 1 ≤ max_size := by omega
      cases hal : alloc (a.expandCapacity (a.num_elements + 1))
      · rw [emplace_back_alloc_fails nm alloc a x h hn hal]
        exact ⟨fun _ => ⟨hn, Or.inr (by simp [allocStorage, hal])⟩, fun _ => rfl⟩
      · rw [emplace_back_realloc nm alloc a x h hn hsmall hal]
        constructor
        · intro hf; simp at hf
        · rintro ⟨_, hbig2 | hnone⟩
          · exact absurd hbig2 hbig
          · simp [allocStorage, hal] at hnone

theorem emplace_back_false_iff_growth_fails_witness :
    sampleFull.Inv ∧
    (((sampleFull.emplace_back true allocNever 30).1 = false ↔
      (sampleFull.num_elements + 1 > sampleFull.max_num_elements ∧
        (sampleFull.num_elements + 1 > max_size ∨
          allocStorage (T := Nat) allocNever
            (sampleFull.expandCapacity (sampleFull.num_elements + 1)) = none))) ∧
    ((sampleFull.emplace_back true allocNever 30).1 = false →
      (sampleFull.emplace_back true allocNever 30).2.1 = sampleFull) ∧
    sampleFull.push_back true allocNever 30 = sampleFull.emplace_back true allocNever 30) :=
  ⟨sampleFull_inv,
    emplace_back_false_iff_growth_fails true allocNever sampleFull 30 sampleFull_inv⟩

/-- C5: after any sequence `pre` of `emplace_back` calls on a default-constructed array, a
further call that returns `true` leaves `capacity()` at least what it was, a call that returns
`false` leaves `size()` and `capacity()` unchanged, and `size()` after `pre` is the number of
calls of `pre` that returned `true`. -/
theorem emplace_back_growth_monotone (nm : Bool) (pre : List ((Nat → Bool) × T))
    (alloc : Nat → Bool) (x : T) :
    (((emplaceAll nm create pre).2.emplace_back nm alloc x).1 = true →
      (emplaceAll nm create pre).2.capacity
        ≤ ((emplaceAll nm create pre).2.emplace_back nm alloc x).2.1.capacity) ∧
    (((emplaceAll nm create pre).2.emplace_back nm alloc x).1 = false →
      ((emplaceAll nm create pre).2.emplace_back nm alloc x).2.1.size
          = (emplaceAll nm create pre).2.size ∧
      ((emplaceAll nm create pre).2.emplace_back nm alloc x).2.1.capacity
          = (emplaceAll nm create pre).2.capacity) ∧
    (emplaceAll nm create pre).2.size = (emplaceAll nm create pre).1.count true := by
  have hinv := emplaceAll_inv nm pre (create : dynamic_array T) create_inv
  obtain ⟨_, ht, hf⟩ := emplace_back_step nm alloc _ x hinv
  refine ⟨fun hr => (ht hr).2, fun hr => by rw [hf hr]; exact ⟨rfl, rfl⟩, ?_⟩
  have := emplaceAll_size nm pre (create : dynamic_array T) create_inv
  simpa [size, create] using this

/-- C6: a default-constructed array satisfies `0 ≤ count ≤ capacity ≤ max_size()` with
`max_size() = 2 ^ 63 - 1`; every `emplace_back`, successful or not, preserves it; and the
capacity chosen by a growth to a requested size `r` with `capacity < r ≤ max_size()` is at least
`r` and at most `max_size()`. -/
theorem emplace_back_preserves_inv (nm : Bool) (alloc : Nat → Bool) (a : dynamic_array T)
    (x : T) (r : Nat) (h : a.Inv) :
    (create : dynamic_array T).Inv ∧
    max_size = 2 ^ 63 - 1 ∧
    (0 ≤ (a.emplace_back nm alloc x).2.1.num_elements ∧
      (a.emplace_back nm alloc x).2.1.num_elements
        ≤ (a.emplace_back nm alloc x).2.1.max_num_elements ∧
      (a.emplace_back nm alloc x).2.1.max_num_elements ≤ max_size) ∧
    (a.max_num_elements < r → r ≤ max_size →
      r ≤ a.expandCapacity r ∧ a.expandCapacity r ≤ max_size) := by
  refine ⟨create_inv, rfl, ⟨Nat.zero_le _, (emplace_back_step nm alloc a x h).1⟩, ?_⟩
  intro _ hr
  obtain ⟨b1, _, b3⟩ := expandCapacity_bounds a r h.2 hr
  exact ⟨b1, b3⟩

theorem emplace_back_preserves_inv_witness :
    sampleFull.Inv ∧
    ((create : dynamic_array Nat).Inv ∧
    max_size = 2 ^ 63 - 1 ∧
    (0 ≤ (sampleFull.emplace_back true allocAlways 30).2.1.num_elements ∧
      (sampleFull.emplace_back true allocAlways 30).2.1.num_elements
        ≤ (sampleFull.emplace_back true allocAlways 30).2.1.max_num_elements ∧
      (sampleFull.emplace_back true allocAlways 30).2.1.max_num_elements ≤ max_size) ∧
    (sampleFull.max_num_elements < 3 → 3 ≤ max_size →
      3 ≤ sampleFull.expandCapacity 3 ∧ sampleFull.expandCapacity 3 ≤ max_size)) :=
  ⟨sampleFull_inv, emplace_back_preserves_inv true allocAlways sampleFull 30 3 sampleFull_inv⟩

/-- C7: for a capacity `c ≤ max_size()` and a requested size `r` with `c < r ≤ max_size()`,
`expandCapacity(r)` is `max_size()` if `c > max_size() - c / 2` and `max(c + c / 2, r)`
otherwise; `c / 2 ≤ max_size()`, so the subtraction does not wrap, and in the second case
`c + c / 2` is below `2 ^ 64`, so the sum does not wrap. -/
theorem expandCapacity_formula (a : dynamic_array T) (r : Nat)
    (hc : a.max_num_elements ≤ max_size) (hlt : a.max_num_elements < r) (hr : r ≤ max_size) :
    a.expandCapacity r =
      (if a.max_num_elements > max_size - a.max_num_elements / 2 then max_size
       else max (a.max_num_elements + a.max_num_elements / 2) r) ∧
    a.max_num_elements / 2 ≤ max_size ∧
    (¬ (a.max_num_elements > max_size - a.max_num_elements / 2) →
      a.max_num_elements + a.max_num_elements / 2 < SIZE_MODULUS ∧
      (a.max_num_elements + a.max_num_elements / 2) % SIZE_MODULUS
        = a.max_num_elements + a.max_num_elements / 2) := by
  refine ⟨expandCapacity_eq a r hc, ?_, ?_⟩
  · unfold max_size at *; omega
  · unfold max_size at *
    unfold SIZE_MODULUS
    intro hs
    omega

theorem expandCapacity_formula_witness :
    sampleFull.max_num_elements ≤ max_size ∧ sampleFull.max_num_elements < 3 ∧ 3 ≤ max_size ∧
    (sampleFull.expandCapacity 3 =
      (if sampleFull.max_num_elements > max_size - sampleFull.max_num_elements / 2 then max_size
       else max (sampleFull.max_num_elements + sampleFull.max_num_elements / 2) 3) ∧
    sampleFull.max_num_elements / 2 ≤ max_size ∧
    (¬ (sampleFull.max_num_elements > max_size - sampleFull.max_num_elements / 2) →
      sampleFull.max_num_elements + sampleFull.max_num_elements / 2 < SIZE_MODULUS ∧
      (sampleFull.max_num_elements + sampleFull.max_num_elements / 2) % SIZE_MODULUS
        = sampleFull.max_num_elements + sampleFull.max_num_elements / 2)) :=
  ⟨by decide, by decide, by decide,
    expandCapacity_formula sampleFull 3 (by decide) (by decide) (by decide)⟩

/-- C8: for an array with `count ≤ capacity ≤ max_size()` whose block has `capacity` slots, an
`emplace_back(x)` that returns `true` leaves `size()` one larger, every element below the old
size where it was, and `x` at the old size; with or without reallocation, for both transfer
policies. -/
theorem emplace_back_keeps_elements (nm : Bool) (alloc : Nat → Bool) (a : dynamic_array T)
    (x : T) (h : a.Inv) (hb : a.BlockOk) (hok : (a.emplace_back nm alloc x).1 = true) :
    (a.emplace_back nm alloc x).2.1.size = a.size + 1 ∧
    (∀ i, i < a.size → (a.emplace_back nm alloc x).2.1.index i = a.index i) ∧
    (a.emplace_back nm alloc x).2.1.index a.size = some x := by
  by_cases hfit : a.num_elements + 1 ≤ a.max_num_elements
  · rw [emplace_back_fits nm alloc a x h hfit]
    have hlen : a.num_elements < a.buffer.length := by rw [hb]; omega
    refine ⟨rfl, ?_, ?_⟩
    · intro i hi
      have hne : a.num_elements ≠ i := by simp only [size] at hi; omega
      simp only [index, List.getD_eq_getElem?_getD]
      rw [List.getElem?_set_ne hne]
    · simp [index, size, List.getD_eq_getElem?_getD, List.getElem?_set, hlen]
  · have hn : a.num_elements + 1 > a.max_num_elements := by omega
    by_cases hbig : a.num_elements + 1 > max_size
    · rw [emplace_back_too_large nm alloc a x h hbig] at hok; simp at hok
    · have hsmall : a.num_elements + 1 ≤ max_size := by omega
      cases hal : alloc (a.expandCapacity (a.num_elements + 1))
      · rw [emplace_back_alloc_fails nm alloc a x h hn hal] at hok; simp at hok
      · rw [emplace_back_realloc nm alloc a x h hn hsmall hal]
        obtain ⟨b1, _, _⟩ := expandCapacity_bounds a (a.num_elements + 1) h.2 hsmall
        have hlen : a.num_elements <
            (transferSlots a.buffer a.num_elements
              (List.replicate (a.expandCapacity (a.num_elements + 1)) none)).length := by
          rw [transferSlots_length, List.length_replicate]; omega
        refine ⟨rfl, ?_, ?_⟩
        · intro i hi
          have hne : a.num_elements ≠ i := by simp only [size] at hi; omega
          have ht := transferSlots_getD a.buffer
            (List.replicate (a.expandCapacity (a.num_elements + 1)) none) a.num_elements
            (by rw [List.length_replicate]; omega) i hi
          simp only [index, List.getD_eq_getElem?_getD] at ht ⊢
          rw [List.getElem?_set_ne hne]
          exact ht
        · simp [index, size, List.getD_eq_getElem?_getD, List.getElem?_set, hlen]

theorem emplace_back_keeps_elements_witness :
    sampleFull.Inv ∧ sampleFull.BlockOk ∧
    (sampleFull.emplace_back false allocAlways 30).1 = true ∧
    ((sampleFull.emplace_back false allocAlways 30).2.1.size = sampleFull.size + 1 ∧
    (∀ i, i < sampleFull.size →
      (sampleFull.emplace_back false allocAlways 30).2.1.index i = sampleFull.index i) ∧
    (sampleFull.emplace_back false allocAlways 30).2.1.index sampleFull.size = some 30) :=
  ⟨sampleFull_inv, rfl, by decide,
    emplace_back_keeps_elements false allocAlways sampleFull 30 sampleFull_inv rfl (by decide)⟩

/-- C9 (the code differs): `destroyContent()` on the full two-element block calls
`destruct()` on the offsets 2, 1, 0, so also on offset 2 = `count`, which is no live slot and
lies outside a block of capacity 2; on a default-constructed array it calls `destruct()` on
offset 0 although no slot is live. -/
theorem destroyContent_visits_slot_count :
    sampleFull.destroyContent = [2, 1, 0] ∧
    (create : dynamic_array Nat).destroyContent = [0] ∧
    (moveContent false sampleFull [none, none, none]).2 = [2, 1, 0] := by
  refine ⟨?_, ?_, ?_⟩
  · rw [destroyContent_eq]; decide
  · rw [destroyContent_eq]; decide
  · simp only [moveContent, Bool.false_eq_true, if_false]
    rw [destroyContent_eq]; decide

end dynamic_array

/-! ## Theorems about `OBJConsumer` -/

namespace OBJConsumer

variable {F : Type}

theorem faceAt_nat (c : OBJConsumer F) (j : Nat) (h : j < MAX_FACE_VERTICES) :
    c.faceAt (j : Int) = some (c.faceVertex j) := by
  have h2 : 0 ≤ (j : Int) ∧ (j : Int) < MAX_FACE_VERTICES := by
    constructor
    · omega
    · exact_mod_cast h
  simp only [faceAt, faceVertex, h2, h, dite_true, and_self, Int.toNat_ofNat]

theorem finishFace_loop_eq (c : OBJConsumer F) (k : Nat) :
    ∀ (i : Nat) (tris : List (Int × Int × Int)), 1 ≤ i → i + k ≤ MAX_FACE_VERTICES →
      finishFace.loop c k (i : Int) tris
        = some (tris ++ (List.range' i k).map
            (fun j => (c.faceVertex 0, c.faceVertex (j - 1), c.faceVertex j))) := by
  induction k with
  | zero => intro i tris _ _; simp [finishFace.loop]
  | succ k ih =>
    intro i tris h1 h7
    have e0 : c.faceAt 0 = some (c.faceVertex 0) := faceAt_nat c 0 (by omega)
    have e1 : c.faceAt ((i : Int) - 1) = some (c.faceVertex (i - 1)) := by
      have : ((i : Int) - 1) = ((i - 1 : Nat) : Int) := by omega
      rw [this]
      exact faceAt_nat c (i - 1) (by omega)
    have e2 : c.faceAt (i : Int) = some (c.faceVertex i) := faceAt_nat c i (by omega)
    have e3 : ((i : Int) + 1) = ((i + 1 : Nat) : Int) := by omega
    simp only [finishFace.loop, e0, e1, e2]
    rw [e3, ih (i + 1) _ (by omega) (by omega)]
    simp [List.range'_succ]

theorem finishFace_done (c : OBJConsumer F) (n : Nat) (hn : c.num_face_vertices = (n : Int))
    (h3 : 3 ≤ n) (h7 : n ≤ MAX_FACE_VERTICES) :
    c.finishFace = .done
      { c with
        triangles := c.triangles ++ (List.range' 2 (n - 2)).map
          (fun i => (c.faceVertex 0, c.faceVertex (i - 1), c.faceVertex i)),
        num_face_vertices := 0 } [] := by
  have hlt : ¬ (c.num_face_vertices < 3) := by omega
  have hk : (c.num_face_vertices - 2).toNat = n - 2 := by omega
  have hl := finishFace_loop_eq c (n - 2) 2 c.triangles (by omega) (by omega)
  simp only [finishFace, hlt, if_false, hk]
  simp only [Nat.cast_ofNat] at hl
  rw [hl]

/-- C3: for an in-progress face of `n` vertices, `3 ≤ n ≤ 7`, `finishFace` returns without
error, appends to the triangle list the triangles `(face[0], face[i-1], face[i])` for
`i = 2, ..., n-1` in this order (`n - 2` triangles, each with `face[0]` first), keeps the
triangles already there, sets `num_face_vertices` to 0 and changes nothing else. -/
theorem finishFace_fan (c : OBJConsumer F) (n : Nat) (hn : c.num_face_vertices = (n : Int))
    (h3 : 3 ≤ n) (h7 : n ≤ MAX_FACE_VERTICES) :
    c.finishFace = .done
      { c with
        triangles := c.triangles ++ (List.range' 2 (n - 2)).map
          (fun i => (c.faceVertex 0, c.faceVertex (i - 1), c.faceVertex i)),
        num_face_vertices := 0 } [] ∧
    ((List.range' 2 (n - 2)).map
      (fun i => (c.faceVertex 0, c.faceVertex (i - 1), c.faceVertex i))).length = n - 2 ∧
    (∀ t ∈ (List.range' 2 (n - 2)).map
        (fun i => (c.faceVertex 0, c.faceVertex (i - 1), c.faceVertex i)),
      t.1 = c.faceVertex 0) := by
  refine ⟨finishFace_done c n hn h3 h7, by simp, ?_⟩
  intro t ht
  simp only [List.mem_map] at ht
  obtain ⟨i, _, rfl⟩ := ht
  rfl

theorem finishFace_fan_witness :
    sampleQuad.num_face_vertices = ((4 : Nat) : Int) ∧ 3 ≤ 4 ∧ 4 ≤ MAX_FACE_VERTICES ∧
    (sampleQuad.finishFace = .done
      { sampleQuad with
        triangles := sampleQuad.triangles ++ (List.range' 2 (4 - 2)).map
          (fun i => (sampleQuad.faceVertex 0, sampleQuad.faceVertex (i - 1),
            sampleQuad.faceVertex i)),
        num_face_vertices := 0 } [] ∧
    ((List.range' 2 (4 - 2)).map
      (fun i => (sampleQuad.faceVertex 0, sampleQuad.faceVertex (i - 1),
        sampleQuad.faceVertex i))).length = 4 - 2 ∧
    (∀ t ∈ (List.range' 2 (4 - 2)).map
        (fun i => (sampleQuad.faceVertex 0, sampleQuad.faceVertex (i - 1),
          sampleQuad.faceVertex i)),
      t.1 = sampleQuad.faceVertex 0)) :=
  ⟨rfl, by decide, by decide, finishFace_fan sampleQuad 4 rfl (by decide) (by decide)⟩

theorem lookup_some_mem (m : List (face_vertex_t × Int)) (k : face_vertex_t) (i : Int)
    (h : m.lookup k = some i) : (k, i) ∈ m := by
  induction m with
  | nil => simp at h
  | cons e rest ih =>
    obtain ⟨k1, i1⟩ := e
    by_cases hk : k = k1
    · subst hk
      simp [List.lookup] at h
      subst h
      simp
    · have hb : (k == k1) = false := by simpa using hk
      simp only [List.lookup, hb] at h
      exact List.mem_cons_of_mem _ (ih h)

theorem lookup_none_not_mem (m : List (face_vertex_t × Int)) (k : face_vertex_t)
    (h : m.lookup k = none) : k ∉ m.map Prod.fst := by
  induction m with
  | nil => simp
  | cons e rest ih =>
    obtain ⟨k1, i1⟩ := e
    by_cases hk : k = k1
    · subst hk
      simp [List.lookup] at h
    · have hb : (k == k1) = false := by simpa using hk
      simp only [List.lookup, hb] at h
      simp only [List.map_cons, List.mem_cons, not_or]
      exact ⟨hk, ih h⟩

/-- The two ways `assemble` returns: the key is in the map (nothing changes), or it is new and
the map and the three assembled vectors grow by one entry. -/
theorem assemble_cases (c : OBJConsumer F) (key : face_vertex_t) (c1 : OBJConsumer F)
    (idx : Int) (h : c.assemble key = some (c1, idx)) :
    (c.vertex_map.lookup key = some idx ∧ c1 = c) ∨
    (c.vertex_map.lookup key = none ∧ idx = (c.positions.length : Int) ∧
      ∃ p n t, readAt c.v key.v = some p ∧ readAt c.vn key.n = some n ∧
        readAt c.vt key.t = some t ∧
        c1 = { c with
          vertex_map := c.vertex_map ++ [(key, (c.positions.length : Int))],
          positions := c.positions ++ [p],
          normals := c.normals ++ [n],
          texcoords := c.texcoords ++ [t] }) := by
  unfold assemble try_emplace at h
  cases hl : c.vertex_map.lookup key with
  | some found =>
    left
    simp only [hl, Bool.false_eq_true, if_false, Option.some.injEq, Prod.mk.injEq] at h
    obtain ⟨h1, h2⟩ := h
    subst h2
    exact ⟨rfl, h1.symm⟩
  | none =>
    right
    simp only [hl, if_true] at h
    cases hp : readAt c.v key.v with
    | none => simp [hp] at h
    | some p =>
      cases hn : readAt c.vn key.n with
      | none => simp [hp, hn] at h
      | some n =>
        cases ht : readAt c.vt key.t with
        | none => simp [hp, hn, ht] at h
        | some t =>
          simp only [hp, hn, ht, Option.some.injEq, Prod.mk.injEq] at h
          obtain ⟨h1, h2⟩ := h
          exact ⟨rfl, h2.symm, p, n, t, rfl, rfl, rfl, h1.symm⟩

/-- When the key is new and the three reads are inside their vectors, `assemble` returns. -/
theorem assemble_new (c : OBJConsumer F) (key : face_vertex_t) (p n : float3 F) (t : float2 F)
    (hl : c.vertex_map.lookup key = none) (hp : readAt c.v key.v = some p)
    (hn : readAt c.vn key.n = some n) (ht : readAt c.vt key.t = some t) :
    c.assemble key = some
      ({ c with
          vertex_map := c.vertex_map ++ [(key, (c.positions.length : Int))],
          positions := c.positions ++ [p],
          normals := c.normals ++ [n],
          texcoords := c.texcoords ++ [t] }, (c.positions.length : Int)) := by
  simp [assemble, try_emplace, hl, hp, hn, ht]

/-- The three ways `pushFaceVertex` ends. -/
theorem pushFaceVertex_cases (c : OBJConsumer F) (idx : Int) :
    (c.num_face_vertices ≥ MAX_FACE_VERTICES ∧
      c.pushFaceVertex idx = .thrown c [] "this face has too many vertices") ∨
    (∃ h : 0 ≤ c.num_face_vertices ∧ c.num_face_vertices < MAX_FACE_VERTICES,
      c.pushFaceVertex idx = .done
        { c with
          face_vertices := c.face_vertices.set ⟨c.num_face_vertices.toNat, by omega⟩ idx,
          num_face_vertices := c.num_face_vertices + 1 } []) ∨
    (c.num_face_vertices < 0 ∧ c.pushFaceVertex idx = .undefined) := by
  unfold pushFaceVertex
  by_cases h7 : c.num_face_vertices ≥ MAX_FACE_VERTICES
  · left; exact ⟨h7, by simp only [h7, dite_true]⟩
  · by_cases h0 : 0 ≤ c.num_face_vertices
    · right; left
      exact ⟨⟨h0, by omega⟩, by simp only [h7, h0, dite_false, dite_true]⟩
    · right; right
      exact ⟨by omega, by simp only [h7, h0, dite_false]⟩

theorem faceAt_set_same (c : OBJConsumer F) (j : Nat) (hj : j < MAX_FACE_VERTICES) (idx : Int)
    (c2 : OBJConsumer F) (hc : c2.face_vertices = c.face_vertices.set ⟨j, hj⟩ idx) :
    c2.faceAt (j : Int) = some idx := by
  rw [faceAt_nat c2 j hj]
  simp only [faceVertex, hj, dite_true, hc, Mathlib.Vector.get_set_same]

/-- A `consumeFaceVertex` that returns has stored in slot `num_face_vertices` of the face
array a value that the vertex map now holds for the resolved key. -/
theorem consumeFaceVertex_done (c : OBJConsumer F) (vi ni ti : Int) (c2 : OBJConsumer F)
    (ws : List String) (h : c.consumeFaceVertex vi ni ti = .done c2 ws) :
    ∃ c1 idx, c.assemble (c.resolve vi ni ti) = some (c1, idx) ∧
      c1.pushFaceVertex idx = .done c2 ws ∧
      c2.faceAt c.num_face_vertices = some idx ∧
      (c.resolve vi ni ti, idx) ∈ c2.vertex_map := by
  unfold consumeFaceVertex at h
  cases ha : c.assemble (c.resolve vi ni ti) with
  | none => simp [ha] at h
  | some r =>
    obtain ⟨c1, idx⟩ := r
    simp only [ha] at h
    refine ⟨c1, idx, rfl, h, ?_⟩
    have hnum : c1.num_face_vertices = c.num_face_vertices := by
      rcases assemble_cases c _ c1 idx ha with ⟨_, rfl⟩ | ⟨_, _, p, n, t, _, _, _, rfl⟩ <;> rfl
    have hmem : (c.resolve vi ni ti, idx) ∈ c1.vertex_map := by
      rcases assemble_cases c _ c1 idx ha with ⟨hl, rfl⟩ | ⟨_, hi, p, n, t, _, _, _, rfl⟩
      · exact lookup_some_mem _ _ _ hl
      · simp [hi]
    rcases pushFaceVertex_cases c1 idx with ⟨_, ht⟩ | ⟨hr, hd⟩ | ⟨_, hu⟩
    · rw [ht] at h; simp at h
    · rw [hd] at h
      simp only [Outcome.done.injEq] at h
      obtain ⟨hc2, _⟩ := h
      subst hc2
      constructor
      · have hcast : c.num_face_vertices = ((c1.num_face_vertices.toNat : Nat) : Int) := by
          rw [← hnum]; omega
        rw [hcast]
        exact faceAt_set_same c1 c1.num_face_vertices.toNat (by omega) idx _ rfl
      · exact hmem
    · rw [hu] at h; simp at h

theorem inv_create [Zero F] (garbage : Mathlib.Vector Int MAX_FACE_VERTICES) :
    (create garbage : OBJConsumer F).Inv := by
  constructor <;> simp [create]

theorem getElem?_zero_append {α : Type} (xs e : List α) (d : α) (h : xs[0]? = some d) :
    (xs ++ e)[0]? = some d := by
  cases xs with
  | nil => simp at h
  | cons x rest => simpa using h

/-- The invariant survives a callback that at most appends to `vn` and `vt` and changes `v`. -/
theorem inv_frame [Zero F] (c c2 : OBJConsumer F) (h : c.Inv)
    (hm : c2.vertex_map = c.vertex_map) (hp : c2.positions = c.positions)
    (hn : c2.normals = c.normals) (ht : c2.texcoords = c.texcoords)
    (htri : c2.triangles = c.triangles) (hf : c2.face_vertices = c.face_vertices)
    (hnum : c2.num_face_vertices = c.num_face_vertices)
    (hvn : ∃ e, c2.vn = c.vn ++ e) (hvt : ∃ e, c2.vt = c.vt ++ e) : c2.Inv := by
  obtain ⟨e1, hvn⟩ := hvn
  obtain ⟨e2, hvt⟩ := hvt
  constructor
  · rw [hm]; exact h.map_values
  · rw [hm]; exact h.map_keys
  · rw [hm, hp]; exact h.len_positions
  · rw [hm, hn]; exact h.len_normals
  · rw [hm, ht]; exact h.len_texcoords
  · rw [hnum]; exact h.num_nonneg
  · rw [hnum]; exact h.num_le
  · rw [hnum, hf, hp]; exact h.face_range
  · rw [htri, hp]; exact h.tri_range
  · rw [hvn]; exact getElem?_zero_append _ _ _ h.vn_default
  · rw [hvt]; exact getElem?_zero_append _ _ _ h.vt_default

theorem map_value_range [Zero F] (c : OBJConsumer F) (h : c.Inv) (k : face_vertex_t) (i : Int)
    (hm : (k, i) ∈ c.vertex_map) : 0 ≤ i ∧ i < c.positions.length := by
  have hi : i ∈ c.vertex_map.map Prod.snd := List.mem_map.mpr ⟨(k, i), hm, rfl⟩
  rw [h.map_values] at hi
  simp only [List.mem_map, List.mem_range] at hi
  obtain ⟨j, hj, rfl⟩ := hi
  rw [h.len_positions]
  omega

theorem inv_assemble [Zero F] (c : OBJConsumer F) (h : c.Inv) (key : face_vertex_t)
    (c1 : OBJConsumer F) (idx : Int) (ha : c.assemble key = some (c1, idx)) :
    c1.Inv ∧ (0 ≤ idx ∧ idx < c1.positions.length) ∧
      (∃ ext, c1.vertex_map = c.vertex_map ++ ext) ∧
      c1.num_face_vertices = c.num_face_vertices ∧ c1.face_vertices = c.face_vertices ∧
      c1.triangles = c.triangles := by
  rcases assemble_cases c key c1 idx ha with ⟨hl, rfl⟩ | ⟨hl, hi, p, n, t, _, _, _, rfl⟩
  · exact ⟨h, map_value_range c1 h key idx (lookup_some_mem _ _ _ hl), ⟨[], by simp⟩,
      rfl, rfl, rfl⟩
  · refine ⟨?_, ?_, ⟨_, rfl⟩, rfl, rfl, rfl⟩
    · constructor
      · simp only [List.map_append, List.map_cons, List.map_nil, List.length_append,
          List.length_singleton, List.range_succ, h.map_values, h.len_positions]
      · simp only [List.map_append, List.map_cons, List.map_nil]
        rw [List.nodup_append]
        refine ⟨h.map_keys, List.nodup_singleton _, ?_⟩
        intro a ha1 ha2
        simp only [List.mem_singleton] at ha2
        subst ha2
        exact lookup_none_not_mem _ _ hl ha1
      · simp [h.len_positions]
      · simp [h.len_normals]
      · simp [h.len_texcoords]
      · exact h.num_nonneg
      · exact h.num_le
      · intro i hi2
        have := h.face_range i hi2
        simp only [List.length_append, List.length_singleton]
        omega
      · intro tr htr
        have := h.tri_range tr htr
        simp only [List.length_append, List.length_singleton]
        omega
      · exact h.vn_default
      · exact h.vt_default
    · subst hi
      simp only [List.length_append, List.length_singleton]
      omega

theorem inv_pushFaceVertex [Zero F] (c : OBJConsumer F) (h : c.Inv) (idx : Int)
    (hidx : 0 ≤ idx ∧ idx < c.positions.length) (c2 : OBJConsumer F)
    (hs : (c.pushFaceVertex idx).state? = some c2) :
    c2.Inv ∧ c2.vertex_map = c.vertex_map := by
  rcases pushFaceVertex_cases c idx with ⟨_, ht⟩ | ⟨hr, hd⟩ | ⟨_, hu⟩
  · rw [ht] at hs
    simp only [Outcome.state?, Option.some.injEq] at hs
    subst hs
    exact ⟨h, rfl⟩
  · rw [hd] at hs
    simp only [Outcome.state?, Option.some.injEq] at hs
    subst hs
    refine ⟨?_, rfl⟩
    constructor
    · exact h.map_values
    · exact h.map_keys
    · exact h.len_positions
    · exact h.len_normals
    · exact h.len_texcoords
    · show 0 ≤ c.num_face_vertices + 1
      omega
    · show c.num_face_vertices + 1 ≤ MAX_FACE_VERTICES
      omega
    · intro i hi
      show 0 ≤ (c.face_vertices.set ⟨c.num_face_vertices.toNat, _⟩ idx).get i ∧
        (c.face_vertices.set ⟨c.num_face_vertices.toNat, _⟩ idx).get i < c.positions.length
      by_cases hsame : (⟨c.num_face_vertices.toNat, by omega⟩ : Fin MAX_FACE_VERTICES) = i
      · rw [← hsame, Mathlib.Vector.get_set_same]
        exact hidx
      · rw [Mathlib.Vector.get_set_of_ne hsame]
        apply h.face_range i
        have hi2 : (i.val : Int) < c.num_face_vertices + 1 := hi
        have hne : i.val ≠ c.num_face_vertices.toNat := by
          intro he
          apply hsame
          exact Fin.ext he.symm
        omega
    · exact h.tri_range
    · exact h.vn_default
    · exact h.vt_default
  · rw [hu] at hs
    simp [Outcome.state?] at hs

theorem faceVertex_range [Zero F] (c : OBJConsumer F) (h : c.Inv) (j : Nat)
    (hj : (j : Int) < c.num_face_vertices) :
    0 ≤ c.faceVertex j ∧ c.faceVertex j < c.positions.length := by
  have h7 : j < MAX_FACE_VERTICES := by
    have := h.num_le
    omega
  simp only [faceVertex, h7, dite_true]
  exact h.face_range ⟨j, h7⟩ hj

theorem inv_finishFace [Zero F] (c : OBJConsumer F) (h : c.Inv) (c2 : OBJConsumer F)
    (hs : c.finishFace.state? = some c2) :
    c2.Inv ∧ c2.vertex_map = c.vertex_map := by
  by_cases h3 : c.num_face_vertices < 3
  · simp only [finishFace, h3, if_true, Outcome.state?, Option.some.injEq] at hs
    subst hs
    exact ⟨h, rfl⟩
  · have hnn := h.num_nonneg
    have hle := h.num_le
    have hfan := finishFace_done c c.num_face_vertices.toNat (by omega) (by omega)
      (by omega)
    rw [hfan] at hs
    simp only [Outcome.state?, Option.some.injEq] at hs
    subst hs
    refine ⟨?_, rfl⟩
    constructor
    · exact h.map_values
    · exact h.map_keys
    · exact h.len_positions
    · exact h.len_normals
    · exact h.len_texcoords
    · show (0 : Int) ≤ 0
      omega
    · show (0 : Int) ≤ MAX_FACE_VERTICES
      omega
    · intro i hi
      have hi2 : (i.val : Int) < 0 := hi
      omega
    · intro tr htr
      have htr2 : tr ∈ c.triangles ++ (List.range' 2 (c.num_face_vertices.toNat - 2)).map
          (fun i => (c.faceVertex 0, c.faceVertex (i - 1), c.faceVertex i)) := htr
      rw [List.mem_append] at htr2
      rcases htr2 with hold | hnew
      · exact h.tri_range tr hold
      · simp only [List.mem_map, List.mem_range'_1] at hnew
        obtain ⟨i, ⟨hi1, hi2⟩, rfl⟩ := hnew
        exact ⟨faceVertex_range c h 0 (by omega), faceVertex_range c h (i - 1) (by omega),
          faceVertex_range c h i (by omega)⟩
    · exact h.vn_default
    · exact h.vt_default

theorem inv_consumeFaceVertex [Zero F] (c : OBJConsumer F) (h : c.Inv) (vi ni ti : Int)
    (c2 : OBJConsumer F) (hs : (c.consumeFaceVertex vi ni ti).state? = some c2) :
    c2.Inv ∧ ∃ ext, c2.vertex_map = c.vertex_map ++ ext := by
  unfold consumeFaceVertex at hs
  cases ha : c.assemble (c.resolve vi ni ti) with
  | none => simp [ha, Outcome.state?] at hs
  | some r =>
    obtain ⟨c1, idx⟩ := r
    simp only [ha] at hs
    obtain ⟨hinv1, hidx, hext, _, _, _⟩ := inv_assemble c h _ c1 idx ha
    obtain ⟨hinv2, hmap⟩ := inv_pushFaceVertex c1 hinv1 idx hidx c2 hs
    exact ⟨hinv2, by rw [hmap]; exact hext⟩

theorem inv_step [Zero F] [One F] [Sub F] (c : OBJConsumer F) (h : c.Inv) (cb : Callback F)
    (c2 : OBJConsumer F) (hs : (c.step cb).state? = some c2) :
    c2.Inv ∧ ∃ ext, c2.vertex_map = c.vertex_map ++ ext := by
  cases cb with
  | vertex x y z =>
    simp only [step, consumeVertex, Outcome.state?, Option.some.injEq] at hs
    subst hs
    exact ⟨inv_frame c _ h rfl rfl rfl rfl rfl rfl rfl ⟨[], by simp⟩ ⟨[], by simp⟩,
      [], by simp⟩
  | normal x y z =>
    simp only [step, consumeNormal, Outcome.state?, Option.some.injEq] at hs
    subst hs
    exact ⟨inv_frame c _ h rfl rfl rfl rfl rfl rfl rfl ⟨_, rfl⟩ ⟨[], by simp⟩, [], by simp⟩
  | texcoord u v =>
    simp only [step, consumeTexcoord, Outcome.state?, Option.some.injEq] at hs
    subst hs
    exact ⟨inv_frame c _ h rfl rfl rfl rfl rfl rfl rfl ⟨[], by simp⟩ ⟨_, rfl⟩, [], by simp⟩
  | faceVertex vi ni ti => exact inv_consumeFaceVertex c h vi ni ti c2 hs
  | finishFace =>
    obtain ⟨hi, hm⟩ := inv_finishFace c h c2 hs
    exact ⟨hi, [], by simp [hm]⟩
  | vertexWeighted x y z w =>
    simp only [step, consumeVertexWeighted, Outcome.state?, Option.some.injEq] at hs
    subst hs
    exact ⟨h, [], by simp⟩
  | texcoord1D u =>
    simp only [step, consumeTexcoord1D, Outcome.state?, Option.some.injEq] at hs
    subst hs
    exact ⟨h, [], by simp⟩
  | texcoord3D u v w =>
    simp only [step, consumeTexcoord3D, Outcome.state?, Option.some.injEq] at hs
    subst hs
    exact ⟨h, [], by simp⟩
  | objectName name =>
    simp only [step, consumeObjectName, Outcome.state?, Option.some.injEq] at hs
    subst hs
    exact ⟨h, [], by simp⟩
  | groupName name =>
    simp only [step, consumeGroupName, Outcome.state?, Option.some.injEq] at hs
    subst hs
    exact ⟨h, [], by simp⟩
  | finishGroupAssignment =>
    simp only [step, finishGroupAssignment, Outcome.state?, Option.some.injEq] at hs
    subst hs
    exact ⟨h, [], by simp⟩
  | smoothingGroup n =>
    simp only [step, consumeSmoothingGroup, Outcome.state?, Option.some.injEq] at hs
    subst hs
    exact ⟨h, [], by simp⟩
  | mtlLib name =>
    simp only [step, consumeMtlLib, Outcome.state?, Option.some.injEq] at hs
    subst hs
    exact ⟨h, [], by simp⟩
  | useMtl name =>
    simp only [step, consumeUseMtl, Outcome.state?, Option.some.injEq] at hs
    subst hs
    exact ⟨h, [], by simp⟩

theorem run_cons_state [One F] [Sub F] (c : OBJConsumer F) (cb : Callback F)
    (rest : List (Callback F)) :
    (c.run (cb :: rest)).state? =
      match c.step cb with
      | .done c1 _ => (c1.run rest).state?
      | .thrown c1 _ _ => some c1
      | .undefined => none := by
  cases hstep : c.step cb with
  | done c1 ws =>
    simp only [run, hstep]
    cases hr : c1.run rest <;> simp [Outcome.state?]
  | thrown c1 ws msg => simp [run, hstep, Outcome.state?]
  | undefined => simp [run, hstep, Outcome.state?]

theorem inv_run [Zero F] [One F] [Sub F] (cbs : List (Callback F)) :
    ∀ (c c2 : OBJConsumer F), c.Inv → (c.run cbs).state? = some c2 →
      c2.Inv ∧ ∃ ext, c2.vertex_map = c.vertex_map ++ ext := by
  induction cbs with
  | nil =>
    intro c c2 h hs
    simp only [run, Outcome.state?, Option.some.injEq] at hs
    subst hs
    exact ⟨h, [], by simp⟩
  | cons cb rest ih =>
    intro c c2 h hs
    rw [run_cons_state] at hs
    cases hstep : c.step cb with
    | done c1 ws =>
      simp only [hstep] at hs
      obtain ⟨h1, e1, he1⟩ := inv_step c h cb c1 (by rw [hstep]; rfl)
      obtain ⟨h2, e2, he2⟩ := ih c1 c2 h1 hs
      exact ⟨h2, e1 ++ e2, by rw [he2, he1, List.append_assoc]⟩
    | thrown c1 ws msg =>
      simp only [hstep, Option.some.injEq] at hs
      subst hs
      exact inv_step c h cb c1 (by rw [hstep]; rfl)
    | undefined =>
      simp [hstep] at hs

/-- In a map that satisfies the invariant, two entries have the same value exactly when they
have the same key. -/
theorem map_entries_agree [Zero F] (c : OBJConsumer F) (h : c.Inv) (k1 k2 : face_vertex_t)
    (i1 i2 : Int) (h1 : (k1, i1) ∈ c.vertex_map) (h2 : (k2, i2) ∈ c.vertex_map) :
    i1 = i2 ↔ k1 = k2 := by
  have hvals : (c.vertex_map.map Prod.snd).Nodup := by
    rw [h.map_values]
    exact List.Nodup.map (fun a b hab => by exact_mod_cast hab) (List.nodup_range _)
  constructor
  · intro hi
    have := List.inj_on_of_nodup_map hvals h1 h2 hi
    exact congrArg Prod.fst this
  · intro hk
    have := List.inj_on_of_nodup_map h.map_keys h1 h2 hk
    exact congrArg Prod.snd this

/-- C1: in a callback sequence on a new consumer, two `consumeFaceVertex` calls that return
(first in state `c1`, later in state `c2`) each store an assembled index in the face array,
and the two stored indices are equal exactly when the two resolved keys
`(position, normal, texcoord)` are equal. -/
theorem dedup_correct [Zero F] [One F] [Sub F] (garbage : Mathlib.Vector Int MAX_FACE_VERTICES)
    (pre mid : List (Callback F)) (vi1 ni1 ti1 vi2 ni2 ti2 : Int)
    (c1 c1a c2 c2a : OBJConsumer F) (w1 w2 w3 w4 : List String)
    (h1 : (create garbage : OBJConsumer F).run pre = .done c1 w1)
    (h2 : c1.consumeFaceVertex vi1 ni1 ti1 = .done c1a w2)
    (h3 : c1a.run mid = .done c2 w3)
    (h4 : c2.consumeFaceVertex vi2 ni2 ti2 = .done c2a w4) :
    ∃ i1 i2, c1a.faceAt c1.num_face_vertices = some i1 ∧
      c2a.faceAt c2.num_face_vertices = some i2 ∧
      (i1 = i2 ↔ c1.resolve vi1 ni1 ti1 = c2.resolve vi2 ni2 ti2) := by
  obtain ⟨hinv1, _⟩ := inv_run pre _ c1 (inv_create garbage) (by rw [h1]; rfl)
  obtain ⟨hinv1a, _⟩ := inv_consumeFaceVertex c1 hinv1 vi1 ni1 ti1 c1a (by rw [h2]; rfl)
  obtain ⟨hinv2, e2, he2⟩ := inv_run mid c1a c2 hinv1a (by rw [h3]; rfl)
  obtain ⟨hinv2a, e3, he3⟩ := inv_consumeFaceVertex c2 hinv2 vi2 ni2 ti2 c2a (by rw [h4]; rfl)
  obtain ⟨_, i1, _, _, hf1, hm1⟩ := consumeFaceVertex_done c1 vi1 ni1 ti1 c1a w2 h2
  obtain ⟨_, i2, _, _, hf2, hm2⟩ := consumeFaceVertex_done c2 vi2 ni2 ti2 c2a w4 h4
  refine ⟨i1, i2, hf1, hf2, ?_⟩
  have hm1a : (c1.resolve vi1 ni1 ti1, i1) ∈ c2a.vertex_map := by
    rw [he3, he2]
    simp [hm1]
  exact map_entries_agree c2a hinv2a _ _ i1 i2 hm1a hm2

theorem dedup_correct_witness :
    (create (Mathlib.Vector.replicate 7 0) : OBJConsumer Int).run [.vertex 1 2 3]
      = .done sampleOneVertex [] ∧
    sampleOneVertex.consumeFaceVertex 1 0 0 = .done sampleOneFace [] ∧
    sampleOneFace.run [] = .done sampleOneFace [] ∧
    sampleOneFace.consumeFaceVertex (-1) 0 0 = .done sampleTwoFace [] ∧
    ∃ i1 i2, sampleOneFace.faceAt sampleOneVertex.num_face_vertices = some i1 ∧
      sampleTwoFace.faceAt sampleOneFace.num_face_vertices = some i2 ∧
      (i1 = i2 ↔ sampleOneVertex.resolve 1 0 0 = sampleOneFace.resolve (-1) 0 0) :=
  ⟨by decide, by decide, by decide, by decide,
    dedup_correct (Mathlib.Vector.replicate 7 0) [.vertex 1 2 3] [] 1 0 0 (-1) 0 0
      sampleOneVertex sampleOneFace sampleOneFace sampleTwoFace [] [] [] []
      (by decide) (by decide) (by decide) (by decide)⟩

/-- C2: when a callback sequence on a new consumer ends without error (and without a read
outside a vector), the mesh returned by `finish()` has equally long `positions`, `normals` and
`texcoords`, and every index of every triangle is `≥ 0` and `< len(positions)`. -/
theorem index_alignment [Zero F] [One F] [Sub F] (garbage : Mathlib.Vector Int MAX_FACE_VERTICES)
    (cbs : List (Callback F)) (c : OBJConsumer F) (ws : List String)
    (h : (create garbage : OBJConsumer F).run cbs = .done c ws) :
    c.finish.positions.length = c.finish.normals.length ∧
    c.finish.normals.length = c.finish.texcoords.length ∧
    ∀ t ∈ c.finish.triangles,
      (0 ≤ t.1 ∧ t.1 < c.finish.positions.length) ∧
      (0 ≤ t.2.1 ∧ t.2.1 < c.finish.positions.length) ∧
      (0 ≤ t.2.2 ∧ t.2.2 < c.finish.positions.length) := by
  obtain ⟨hinv, _⟩ := inv_run cbs _ c (inv_create garbage) (by rw [h]; rfl)
  refine ⟨?_, ?_, hinv.tri_range⟩
  · show c.positions.length = c.normals.length
    rw [hinv.len_positions, hinv.len_normals]
  · show c.normals.length = c.texcoords.length
    rw [hinv.len_normals, hinv.len_texcoords]

theorem index_alignment_witness :
    (create (Mathlib.Vector.replicate 7 0) : OBJConsumer Int).run sampleQuadCallbacks
      = .done sampleQuadDone [] ∧
    (sampleQuadDone.finish.positions.length = sampleQuadDone.finish.normals.length ∧
    sampleQuadDone.finish.normals.length = sampleQuadDone.finish.texcoords.length ∧
    ∀ t ∈ sampleQuadDone.finish.triangles,
      (0 ≤ t.1 ∧ t.1 < sampleQuadDone.finish.positions.length) ∧
      (0 ≤ t.2.1 ∧ t.2.1 < sampleQuadDone.finish.positions.length) ∧
      (0 ≤ t.2.2 ∧ t.2.2 < sampleQuadDone.finish.positions.length)) :=
  ⟨by decide,
    index_alignment (Mathlib.Vector.replicate 7 0) sampleQuadCallbacks sampleQuadDone []
      (by decide)⟩

theorem resolve_zero (c : OBJConsumer F) (vi : Int) :
    (c.resolve vi 0 0).n = 0 ∧ (c.resolve vi 0 0).t = 0 := by
  simp [resolve]

theorem readAt_zero {α : Type} (xs : List α) : readAt xs 0 = xs[0]? := by
  simp [readAt]

/-- C10: in every state `c` that a callback sequence on a new consumer reaches, `vn[0]` is
`(0,0,0)` and `vt[0]` is `(0,0)`; and a `consumeFaceVertex(vi, 0, 0)` whose resolved position
index is inside `v` (reading `p`) and whose key is not yet in the vertex map leaves a consumer
(it returns, or throws the too-many-vertices error) in which the new assembled vertex has
position `p`, normal `(0,0,0)` and texcoord `(0,0)`. -/
theorem default_attribute_resolution [Zero F] [One F] [Sub F]
    (garbage : Mathlib.Vector Int MAX_FACE_VERTICES) (cbs : List (Callback F))
    (c : OBJConsumer F) (ws : List String)
    (hreach : (create garbage : OBJConsumer F).run cbs = .done c ws)
    (vi : Int) (p : float3 F)
    (hin : readAt c.v (c.resolve vi 0 0).v = some p)
    (hnew : c.vertex_map.lookup (c.resolve vi 0 0) = none) :
    c.vn[0]? = some ⟨0, 0, 0⟩ ∧ c.vt[0]? = some ⟨0, 0⟩ ∧
    ∃ c2, (c.consumeFaceVertex vi 0 0).state? = some c2 ∧
      c2.vertex_map = c.vertex_map ++ [(c.resolve vi 0 0, (c.positions.length : Int))] ∧
      c2.positions = c.positions ++ [p] ∧
      c2.normals = c.normals ++ [⟨0, 0, 0⟩] ∧
      c2.texcoords = c.texcoords ++ [⟨0, 0⟩] := by
  obtain ⟨hinv, _⟩ := inv_run cbs _ c (inv_create garbage) (by rw [hreach]; rfl)
  refine ⟨hinv.vn_default, hinv.vt_default, ?_⟩
  have hn : readAt c.vn (c.resolve vi 0 0).n = some ⟨0, 0, 0⟩ := by
    rw [(resolve_zero c vi).1, readAt_zero]; exact hinv.vn_default
  have ht : readAt c.vt (c.resolve vi 0 0).t = some ⟨0, 0⟩ := by
    rw [(resolve_zero c vi).2, readAt_zero]; exact hinv.vt_default
  have ha := assemble_new c (c.resolve vi 0 0) p ⟨0, 0, 0⟩ ⟨0, 0⟩ hnew hin hn ht
  simp only [consumeFaceVertex, ha]
  rcases pushFaceVertex_cases
      { c with
        vertex_map := c.vertex_map ++ [(c.resolve vi 0 0, (c.positions.length : Int))],
        positions := c.positions ++ [p],
        normals := c.normals ++ [⟨0, 0, 0⟩],
        texcoords := c.texcoords ++ [⟨0, 0⟩] } (c.positions.length : Int)
    with ⟨_, hthrown⟩ | ⟨_, hdone⟩ | ⟨hneg, _⟩
  · rw [hthrown]
    exact ⟨_, rfl, rfl, rfl, rfl, rfl⟩
  · rw [hdone]
    exact ⟨_, rfl, rfl, rfl, rfl, rfl⟩
  · have := hinv.num_nonneg
    have hneg2 : c.num_face_vertices < 0 := hneg
    omega

theorem default_attribute_resolution_witness :
    (create (Mathlib.Vector.replicate 7 0) : OBJConsumer Int).run [.vertex 1 2 3]
      = .done sampleOneVertex [] ∧
    readAt sampleOneVertex.v (sampleOneVertex.resolve 1 0 0).v = some ⟨1, 2, 3⟩ ∧
    sampleOneVertex.vertex_map.lookup (sampleOneVertex.resolve 1 0 0) = none ∧
    (sampleOneVertex.vn[0]? = some ⟨0, 0, 0⟩ ∧ sampleOneVertex.vt[0]? = some ⟨0, 0⟩ ∧
    ∃ c2, (sampleOneVertex.consumeFaceVertex 1 0 0).state? = some c2 ∧
      c2.vertex_map = sampleOneVertex.vertex_map ++
        [(sampleOneVertex.resolve 1 0 0, (sampleOneVertex.positions.length : Int))] ∧
      c2.positions = sampleOneVertex.positions ++ [⟨1, 2, 3⟩] ∧
      c2.normals = sampleOneVertex.normals ++ [⟨0, 0, 0⟩] ∧
      c2.texcoords = sampleOneVertex.texcoords ++ [⟨0, 0⟩]) :=
  ⟨by decide, by decide, by decide,
    default_attribute_resolution (Mathlib.Vector.replicate 7 0) [.vertex 1 2 3]
      sampleOneVertex [] (by decide) 1 ⟨1, 2, 3⟩ (by decide) (by decide)⟩

theorem readAt_isSome_iff {α : Type} (xs : List α) (i : Int) :
    (readAt xs i).isSome ↔ 0 ≤ i ∧ i < xs.length := by
  unfold readAt
  by_cases h : 0 ≤ i
  · simp only [h, if_true, true_and]
    constructor
    · intro hs
      obtain ⟨a, ha⟩ := Option.isSome_iff_exists.mp hs
      have := (List.getElem?_eq_some.mp ha).1
      omega
    · intro hlt
      have hlt2 : i.toNat < xs.length := by omega
      simp [List.getElem?_eq_getElem hlt2]
  · simp [h]

/-- C17: `consumeTexcoord(u, v)` returns without warning and appends the one entry
`(u, 1.0f - v)` at the end of `vt`; all entries that were there, the default at index 0
included, stay where they are and no other member changes.  `consumeVertex(x, y, z)` and
`consumeNormal(x, y, z)` append `(x, y, z)` to `v` and to `vn` in the same way. -/
theorem consumeTexcoord_flip [One F] [Sub F] (c : OBJConsumer F) (u v x y z : F) :
    c.consumeTexcoord u v = .done { c with vt := c.vt ++ [⟨u, 1 - v⟩] } [] ∧
    (c.vt ++ [(⟨u, 1 - v⟩ : float2 F)]).length = c.vt.length + 1 ∧
    (∀ i, i < c.vt.length → (c.vt ++ [(⟨u, 1 - v⟩ : float2 F)])[i]? = c.vt[i]?) ∧
    (c.vt ++ [(⟨u, 1 - v⟩ : float2 F)])[c.vt.length]? = some ⟨u, 1 - v⟩ ∧
    c.consumeVertex x y z = .done { c with v := c.v ++ [⟨x, y, z⟩] } [] ∧
    c.consumeNormal x y z = .done { c with vn := c.vn ++ [⟨x, y, z⟩] } [] := by
  refine ⟨rfl, by simp, ?_, by simp, rfl, rfl⟩
  intro i hi
  exact List.getElem?_append_left hi

/-- C18: `consumeObjectName`, `consumeGroupName` and `finishGroupAssignment` return with the
consumer unchanged and without any diagnostic; `consumeSmoothingGroup`, `consumeMtlLib` and
`consumeUseMtl` return with the consumer unchanged and exactly one warning (the smoothing-group
text for the first, the materials text for the other two); none of the six throws. -/
theorem ignored_directives (c : OBJConsumer F) (name : String) (n : Int) :
    c.consumeObjectName name = .done c [] ∧
    c.consumeGroupName name = .done c [] ∧
    c.finishGroupAssignment = .done c [] ∧
    c.consumeSmoothingGroup n = .done c ["smoothing groups are ignored!"] ∧
    c.consumeMtlLib name = .done c ["materials are ignored!"] ∧
    c.consumeUseMtl name = .done c ["materials are ignored!"] :=
  ⟨rfl, rfl, rfl, rfl, rfl, rfl⟩

theorem finishFace_outcomes (c : OBJConsumer F) :
    (c.num_face_vertices < 3 ∧
      c.finishFace = .thrown c [] "face must have at least three vertices") ∨
    (¬ c.num_face_vertices < 3 ∧
      ((∃ tris, c.finishFace = .done { c with triangles := tris, num_face_vertices := 0 } [])
        ∨ c.finishFace = .undefined)) := by
  by_cases h3 : c.num_face_vertices < 3
  · left
    exact ⟨h3, by simp only [finishFace, h3, if_true]⟩
  · right
    refine ⟨h3, ?_⟩
    simp only [finishFace, h3, if_false]
    cases finishFace.loop c (c.num_face_vertices - 2).toNat 2 c.triangles with
    | none => right; rfl
    | some tris => left; exact ⟨tris, rfl⟩

/-- C13: `finishFace` throws the at-least-three-vertices error exactly when
`num_face_vertices < 3`, and then the consumer (its triangle list included) is as before; the
face line `f 1 2` after two vertex lines ends the run with this error and no triangle; the
weighted `consumeVertex` throws its error in every state and leaves the consumer unchanged. -/
theorem rejected_inputs (c : OBJConsumer F) (x y z w : F) :
    (c.finishFace.message? = some "face must have at least three vertices"
      ↔ c.num_face_vertices < 3) ∧
    (c.num_face_vertices < 3 →
      c.finishFace = .thrown c [] "face must have at least three vertices") ∧
    ((create (Mathlib.Vector.replicate 7 0) : OBJConsumer Int).run
        [.vertex 0 0 0, .vertex 1 0 0, .faceVertex 1 0 0, .faceVertex 2 0 0, .finishFace]).message?
      = some "face must have at least three vertices" ∧
    (((create (Mathlib.Vector.replicate 7 0) : OBJConsumer Int).run
        [.vertex 0 0 0, .vertex 1 0 0, .faceVertex 1 0 0, .faceVertex 2 0 0, .finishFace]).state?.map
          (fun c2 => c2.triangles)) = some [] ∧
    c.consumeVertexWeighted x y z w
      = .thrown c [] "weighted vertex coordinates are not supported" := by
  refine ⟨?_, ?_, by decide, by decide, rfl⟩
  · rcases finishFace_outcomes c with ⟨h3, ht⟩ | ⟨h3, ⟨tris, hd⟩ | hu⟩
    · rw [ht]; simp [Outcome.message?, h3]
    · rw [hd]; simp [Outcome.message?, h3]
    · rw [hu]; simp [Outcome.message?, h3]
  · intro h3
    rcases finishFace_outcomes c with ⟨_, ht⟩ | ⟨h3n, _⟩
    · exact ht
    · exact absurd h3 h3n

/-- C19: with `P`, `N`, `T` the sizes of `v`, `vn`, `vt`: when `1 ≤ vi ≤ P` or `-P ≤ vi ≤ -1`,
and `-N ≤ ni ≤ N - 1`, and `-T ≤ ti ≤ T - 1`, the indices resolved by `consumeFaceVertex` lie in
`[0, P)`, `[0, N)`, `[0, T)` and the reads `v[vi]`, `vn[ni]`, `vt[ti]` are inside their
vectors; `vi = 0` resolves to position index `-1`, which is outside `v` whatever its size. -/
theorem resolve_in_range (c : OBJConsumer F) (vi ni ti : Int)
    (hv : (1 ≤ vi ∧ vi ≤ (c.v.length : Int)) ∨ (-(c.v.length : Int) ≤ vi ∧ vi ≤ -1))
    (hn : -(c.vn.length : Int) ≤ ni ∧ ni ≤ (c.vn.length : Int) - 1)
    (ht : -(c.vt.length : Int) ≤ ti ∧ ti ≤ (c.vt.length : Int) - 1) :
    (0 ≤ (c.resolve vi ni ti).v ∧ (c.resolve vi ni ti).v < (c.v.length : Int)) ∧
    (0 ≤ (c.resolve vi ni ti).n ∧ (c.resolve vi ni ti).n < (c.vn.length : Int)) ∧
    (0 ≤ (c.resolve vi ni ti).t ∧ (c.resolve vi ni ti).t < (c.vt.length : Int)) ∧
    (readAt c.v (c.resolve vi ni ti).v).isSome ∧
    (readAt c.vn (c.resolve vi ni ti).n).isSome ∧
    (readAt c.vt (c.resolve vi ni ti).t).isSome ∧
    (c.resolve 0 ni ti).v = -1 ∧ readAt c.v (c.resolve 0 ni ti).v = none := by
  have hv2 : 0 ≤ (c.resolve vi ni ti).v ∧ (c.resolve vi ni ti).v < (c.v.length : Int) := by
    simp only [resolve]
    split_ifs <;> omega
  have hn2 : 0 ≤ (c.resolve vi ni ti).n ∧ (c.resolve vi ni ti).n < (c.vn.length : Int) := by
    simp only [resolve]
    split_ifs <;> omega
  have ht2 : 0 ≤ (c.resolve vi ni ti).t ∧ (c.resolve vi ni ti).t < (c.vt.length : Int) := by
    simp only [resolve]
    split_ifs <;> omega
  refine ⟨hv2, hn2, ht2, (readAt_isSome_iff _ _).mpr hv2, (readAt_isSome_iff _ _).mpr hn2,
    (readAt_isSome_iff _ _).mpr ht2, by simp [resolve], by simp [resolve, readAt]⟩

theorem resolve_in_range_witness :
    ((1 ≤ (1 : Int) ∧ (1 : Int) ≤ (sampleOneVertex.v.length : Int)) ∨
      (-(sampleOneVertex.v.length : Int) ≤ 1 ∧ (1 : Int) ≤ -1)) ∧
    (-(sampleOneVertex.vn.length : Int) ≤ 0 ∧ (0 : Int) ≤ (sampleOneVertex.vn.length : Int) - 1) ∧
    (-(sampleOneVertex.vt.length : Int) ≤ 0 ∧ (0 : Int) ≤ (sampleOneVertex.vt.length : Int) - 1) ∧
    ((0 ≤ (sampleOneVertex.resolve 1 0 0).v ∧
      (sampleOneVertex.resolve 1 0 0).v < (sampleOneVertex.v.length : Int)) ∧
    (0 ≤ (sampleOneVertex.resolve 1 0 0).n ∧
      (sampleOneVertex.resolve 1 0 0).n < (sampleOneVertex.vn.length : Int)) ∧
    (0 ≤ (sampleOneVertex.resolve 1 0 0).t ∧
      (sampleOneVertex.resolve 1 0 0).t < (sampleOneVertex.vt.length : Int)) ∧
    (readAt sampleOneVertex.v (sampleOneVertex.resolve 1 0 0).v).isSome ∧
    (readAt sampleOneVertex.vn (sampleOneVertex.resolve 1 0 0).n).isSome ∧
    (readAt sampleOneVertex.vt (sampleOneVertex.resolve 1 0 0).t).isSome ∧
    (sampleOneVertex.resolve 0 0 0).v = -1 ∧
    readAt sampleOneVertex.v (sampleOneVertex.resolve 0 0 0).v = none) :=
  ⟨by decide, by decide, by decide,
    resolve_in_range sampleOneVertex 1 0 0 (by decide) (by decide) (by decide)⟩

/-- C20: when the face array holds 7 vertices and `consumeFaceVertex` is called with a
reference whose resolved key is not in the vertex map and whose three reads are inside their
vectors, the call throws the too-many-vertices error after the insert: the consumer it leaves
has the key in the map and one more entry in `positions`, `normals` and `texcoords`, while
`face_vertices`, `num_face_vertices` and `triangles` are as before. -/
theorem eighth_vertex_rejected_after_insert (c : OBJConsumer F) (vi ni ti : Int)
    (p n : float3 F) (t : float2 F)
    (h7 : c.num_face_vertices = 7)
    (hnew : c.vertex_map.lookup (c.resolve vi ni ti) = none)
    (hp : readAt c.v (c.resolve vi ni ti).v = some p)
    (hn : readAt c.vn (c.resolve vi ni ti).n = some n)
    (ht : readAt c.vt (c.resolve vi ni ti).t = some t) :
    c.consumeFaceVertex vi ni ti = .thrown
      { c with
        vertex_map := c.vertex_map ++ [(c.resolve vi ni ti, (c.positions.length : Int))],
        positions := c.positions ++ [p],
        normals := c.normals ++ [n],
        texcoords := c.texcoords ++ [t] } [] "this face has too many vertices" := by
  have ha := assemble_new c (c.resolve vi ni ti) p n t hnew hp hn ht
  simp only [consumeFaceVertex, ha]
  rcases pushFaceVertex_cases
      { c with
        vertex_map := c.vertex_map ++ [(c.resolve vi ni ti, (c.positions.length : Int))],
        positions := c.positions ++ [p],
        normals := c.normals ++ [n],
        texcoords := c.texcoords ++ [t] } (c.positions.length : Int)
    with ⟨_, hthrown⟩ | ⟨hr, _⟩ | ⟨hneg, _⟩
  · exact hthrown
  · have hlt : c.num_face_vertices < 7 := hr.2
    omega
  · have hlt : c.num_face_vertices < 0 := hneg
    omega

theorem eighth_vertex_rejected_after_insert_witness :
    (create (Mathlib.Vector.replicate 7 0) : OBJConsumer Int).run sampleSevenCallbacks
      = .done sampleSeven [] ∧
    sampleSeven.num_face_vertices = 7 ∧
    sampleSeven.vertex_map.lookup (sampleSeven.resolve 2 0 0) = none ∧
    readAt sampleSeven.v (sampleSeven.resolve 2 0 0).v = some ⟨4, 5, 6⟩ ∧
    readAt sampleSeven.vn (sampleSeven.resolve 2 0 0).n = some ⟨0, 0, 0⟩ ∧
    readAt sampleSeven.vt (sampleSeven.resolve 2 0 0).t = some ⟨0, 0⟩ ∧
    sampleSeven.consumeFaceVertex 2 0 0 = .thrown
      { sampleSeven with
        vertex_map := sampleSeven.vertex_map ++
          [(sampleSeven.resolve 2 0 0, (sampleSeven.positions.length : Int))],
        positions := sampleSeven.positions ++ [⟨4, 5, 6⟩],
        normals := sampleSeven.normals ++ [⟨0, 0, 0⟩],
        texcoords := sampleSeven.texcoords ++ [⟨0, 0⟩] } [] "this face has too many vertices" :=
  ⟨by decide, by decide, by decide, by decide, by decide, by decide,
    eighth_vertex_rejected_after_insert sampleSeven 2 0 0 ⟨4, 5, 6⟩ ⟨0, 0, 0⟩ ⟨0, 0⟩
      (by decide) (by decide) (by decide) (by decide) (by decide)⟩

/-- C12: on a new consumer, the callbacks of `v 0 0 0`, `v 1 0 0`, `v 1 1 0`, `v 0 1 0`,
`f 1 2 3 4` all return, and `finish()` then yields the four declared positions in order, four
normals `(0,0,0)`, four texcoords `(0,0)` (the default, not flipped), and the two triangles
`(0,1,2)`, `(0,2,3)` in this order. -/
theorem end_to_end_quad [Zero F] [One F] [Sub F]
    (garbage : Mathlib.Vector Int MAX_FACE_VERTICES) :
    ((create garbage : OBJConsumer F).run
        [.vertex 0 0 0, .vertex 1 0 0, .vertex 1 1 0, .vertex 0 1 0,
         .faceVertex 1 0 0, .faceVertex 2 0 0, .faceVertex 3 0 0, .faceVertex 4 0 0,
         .finishFace]).message? = none ∧
    ((create garbage : OBJConsumer F).run
        [.vertex 0 0 0, .vertex 1 0 0, .vertex 1 1 0, .vertex 0 1 0,
         .faceVertex 1 0 0, .faceVertex 2 0 0, .faceVertex 3 0 0, .faceVertex 4 0 0,
         .finishFace]).state?.map finish =
      some
        { positions := [⟨0, 0, 0⟩, ⟨1, 0, 0⟩, ⟨1, 1, 0⟩, ⟨0, 1, 0⟩],
          normals := [⟨0, 0, 0⟩, ⟨0, 0, 0⟩, ⟨0, 0, 0⟩, ⟨0, 0, 0⟩],
          texcoords := [⟨0, 0⟩, ⟨0, 0⟩, ⟨0, 0⟩, ⟨0, 0⟩],
          triangles := [(0, 1, 2), (0, 2, 3)] } := by
  obtain ⟨l, hl⟩ := garbage
  match l, hl with
  | [g0, g1, g2, g3, g4, g5, g6], _ => exact ⟨rfl, rfl⟩

/-- The consumer that `consumeFaceVertex` leaves (returning or throwing) differs from the one
that `assemble` returns in the face array and its counter only. -/
theorem consumeFaceVertex_state (c : OBJConsumer F) (vi ni ti : Int) (c2 : OBJConsumer F)
    (hs : (c.consumeFaceVertex vi ni ti).state? = some c2) :
    ∃ c1 idx, c.assemble (c.resolve vi ni ti) = some (c1, idx) ∧
      c2.v = c1.v ∧ c2.vn = c1.vn ∧ c2.vt = c1.vt ∧ c2.vertex_map = c1.vertex_map ∧
      c2.positions = c1.positions ∧ c2.normals = c1.normals ∧
      c2.texcoords = c1.texcoords ∧ c2.triangles = c1.triangles := by
  unfold consumeFaceVertex at hs
  cases ha : c.assemble (c.resolve vi ni ti) with
  | none => simp [ha, Outcome.state?] at hs
  | some r =>
    obtain ⟨c1, idx⟩ := r
    simp only [ha] at hs
    refine ⟨c1, idx, rfl, ?_⟩
    rcases pushFaceVertex_cases c1 idx with ⟨_, ht⟩ | ⟨_, hd⟩ | ⟨_, hu⟩
    · rw [ht] at hs
      simp only [Outcome.state?, Option.some.injEq] at hs
      subst hs
      exact ⟨rfl, rfl, rfl, rfl, rfl, rfl, rfl, rfl⟩
    · rw [hd] at hs
      simp only [Outcome.state?, Option.some.injEq] at hs
      subst hs
      exact ⟨rfl, rfl, rfl, rfl, rfl, rfl, rfl, rfl⟩
    · rw [hu] at hs
      simp [Outcome.state?] at hs

/-- What every callback other than `consumeFaceVertex` keeps: the vertex map, the assembled
vectors, and the raw lists up to entries appended at their end; other than `consumeVertex`
also `v` itself. -/
theorem step_other [One F] [Sub F] (c : OBJConsumer F) (cb : Callback F) (c2 : OBJConsumer F)
    (hcb : ∀ vi ni ti, cb ≠ .faceVertex vi ni ti) (hs : (c.step cb).state? = some c2) :
    c2.vertex_map = c.vertex_map ∧ c2.positions = c.positions ∧ c2.normals = c.normals ∧
    c2.texcoords = c.texcoords ∧ c2.face_vertices = c.face_vertices ∧
    (c2.triangles = c.triangles ∨ cb = .finishFace) ∧
    (∃ e, c2.v = c.v ++ e) ∧ (∃ e, c2.vn = c.vn ++ e) ∧ (∃ e, c2.vt = c.vt ++ e) ∧
    ((∀ x y z, cb ≠ .vertex x y z) → c2.v = c.v) := by
  cases cb with
  | vertex x y z =>
    simp only [step, consumeVertex, Outcome.state?, Option.some.injEq] at hs
    subst hs
    exact ⟨rfl, rfl, rfl, rfl, rfl, Or.inl rfl, ⟨_, rfl⟩, ⟨[], by simp⟩, ⟨[], by simp⟩,
      fun h => absurd rfl (h x y z)⟩
  | normal x y z =>
    simp only [step, consumeNormal, Outcome.state?, Option.some.injEq] at hs
    subst hs
    exact ⟨rfl, rfl, rfl, rfl, rfl, Or.inl rfl, ⟨[], by simp⟩, ⟨_, rfl⟩, ⟨[], by simp⟩,
      fun _ => rfl⟩
  | texcoord u v =>
    simp only [step, consumeTexcoord, Outcome.state?, Option.some.injEq] at hs
    subst hs
    exact ⟨rfl, rfl, rfl, rfl, rfl, Or.inl rfl, ⟨[], by simp⟩, ⟨[], by simp⟩, ⟨_, rfl⟩,
      fun _ => rfl⟩
  | faceVertex vi ni ti => exact absurd rfl (hcb vi ni ti)
  | finishFace =>
    simp only [step] at hs
    rcases finishFace_outcomes c with ⟨_, ht⟩ | ⟨_, ⟨tris, hd⟩ | hu⟩
    · rw [ht] at hs
      simp only [Outcome.state?, Option.some.injEq] at hs
      subst hs
      exact ⟨rfl, rfl, rfl, rfl, rfl, Or.inr rfl, ⟨[], by simp⟩, ⟨[], by simp⟩,
        ⟨[], by simp⟩, fun _ => rfl⟩
    · rw [hd] at hs
      simp only [Outcome.state?, Option.some.injEq] at hs
      subst hs
      exact ⟨rfl, rfl, rfl, rfl, rfl, Or.inr rfl, ⟨[], by simp⟩, ⟨[], by simp⟩,
        ⟨[], by simp⟩, fun _ => rfl⟩
    · rw [hu] at hs
      simp [Outcome.state?] at hs
  | vertexWeighted x y z w =>
    simp only [step, consumeVertexWeighted, Outcome.state?, Option.some.injEq] at hs
    subst hs
    exact ⟨rfl, rfl, rfl, rfl, rfl, Or.inl rfl, ⟨[], by simp⟩, ⟨[], by simp⟩, ⟨[], by simp⟩,
      fun _ => rfl⟩
  | texcoord1D u =>
    simp only [step, consumeTexcoord1D, Outcome.state?, Option.some.injEq] at hs
    subst hs
    exact ⟨rfl, rfl, rfl, rfl, rfl, Or.inl rfl, ⟨[], by simp⟩, ⟨[], by simp⟩, ⟨[], by simp⟩,
      fun _ => rfl⟩
  | texcoord3D u v w =>
    simp only [step, consumeTexcoord3D, Outcome.state?, Option.some.injEq] at hs
    subst hs
    exact ⟨rfl, rfl, rfl, rfl, rfl, Or.inl rfl, ⟨[], by simp⟩, ⟨[], by simp⟩, ⟨[], by simp⟩,
      fun _ => rfl⟩
  | objectName name =>
    simp only [step, consumeObjectName, Outcome.state?, Option.some.injEq] at hs
    subst hs
    exact ⟨rfl, rfl, rfl, rfl, rfl, Or.inl rfl, ⟨[], by simp⟩, ⟨[], by simp⟩, ⟨[], by simp⟩,
      fun _ => rfl⟩
  | groupName name =>
    simp only [step, consumeGroupName, Outcome.state?, Option.some.injEq] at hs
    subst hs
    exact ⟨rfl, rfl, rfl, rfl, rfl, Or.inl rfl, ⟨[], by simp⟩, ⟨[], by simp⟩, ⟨[], by simp⟩,
      fun _ => rfl⟩
  | finishGroupAssignment =>
    simp only [step, finishGroupAssignment, Outcome.state?, Option.some.injEq] at hs
    subst hs
    exact ⟨rfl, rfl, rfl, rfl, rfl, Or.inl rfl, ⟨[], by simp⟩, ⟨[], by simp⟩, ⟨[], by simp⟩,
      fun _ => rfl⟩
  | smoothingGroup n =>
    simp only [step, consumeSmoothingGroup, Outcome.state?, Option.some.injEq] at hs
    subst hs
    exact ⟨rfl, rfl, rfl, rfl, rfl, Or.inl rfl, ⟨[], by simp⟩, ⟨[], by simp⟩, ⟨[], by simp⟩,
      fun _ => rfl⟩
  | mtlLib name =>
    simp only [step, consumeMtlLib, Outcome.state?, Option.some.injEq] at hs
    subst hs
    exact ⟨rfl, rfl, rfl, rfl, rfl, Or.inl rfl, ⟨[], by simp⟩, ⟨[], by simp⟩, ⟨[], by simp⟩,
      fun _ => rfl⟩
  | useMtl name =>
    simp only [step, consumeUseMtl, Outcome.state?, Option.some.injEq] at hs
    subst hs
    exact ⟨rfl, rfl, rfl, rfl, rfl, Or.inl rfl, ⟨[], by simp⟩, ⟨[], by simp⟩, ⟨[], by simp⟩,
      fun _ => rfl⟩

theorem readAt_last {α : Type} (xs : List α) (hne : xs ≠ []) :
    readAt xs ((xs.length : Int) - 1) = xs.getLast? := by
  have hpos : 0 < xs.length := List.length_pos.mpr hne
  have h0 : (0 : Int) ≤ (xs.length : Int) - 1 := by omega
  have ht : ((xs.length : Int) - 1).toNat = xs.length - 1 := by omega
  simp only [readAt, h0, if_true, ht, List.getLast?_eq_getElem?]

/-- C11: in a state reached by a callback sequence on a new consumer in which `v` is not
empty, the position reference `-1` resolves to `size(v) - 1`, the read there yields the last
entry of `v`, which is what the most recent `consumeVertex` appended (`consumeVertex(x, y, z)`
makes `(x, y, z)` the last entry and every other callback leaves `v` as it is), and a
`consumeFaceVertex(-1, ni, ti)` with a new key and in-range `ni`, `ti` stores that entry as the
position of the new assembled vertex. -/
theorem negative_index_resolution [Zero F] [One F] [Sub F]
    (garbage : Mathlib.Vector Int MAX_FACE_VERTICES) (cbs : List (Callback F))
    (c : OBJConsumer F) (ws : List String)
    (hreach : (create garbage : OBJConsumer F).run cbs = .done c ws)
    (hne : c.v ≠ []) (ni ti : Int) :
    (c.resolve (-1) ni ti).v = (c.v.length : Int) - 1 ∧
    readAt c.v (c.resolve (-1) ni ti).v = c.v.getLast? ∧
    (∃ last, c.v.getLast? = some last) ∧
    (∀ x y z, ∃ c2, c.consumeVertex x y z = .done c2 [] ∧ c2.v.getLast? = some ⟨x, y, z⟩) ∧
    (∀ cb c2, (∀ x y z, cb ≠ .vertex x y z) → (c.step cb).state? = some c2 → c2.v = c.v) ∧
    (∀ n t, c.vertex_map.lookup (c.resolve (-1) ni ti) = none →
      readAt c.vn (c.resolve (-1) ni ti).n = some n →
      readAt c.vt (c.resolve (-1) ni ti).t = some t →
      ∃ c2 last, c.v.getLast? = some last ∧
        (c.consumeFaceVertex (-1) ni ti).state? = some c2 ∧
        c2.positions = c.positions ++ [last]) := by
  obtain ⟨hinv, _⟩ := inv_run cbs _ c (inv_create garbage) (by rw [hreach]; rfl)
  have hres : (c.resolve (-1) ni ti).v = (c.v.length : Int) - 1 := by
    simp only [resolve]
    rw [if_pos (by omega)]
    omega
  have hread : readAt c.v (c.resolve (-1) ni ti).v = c.v.getLast? := by
    rw [hres]; exact readAt_last c.v hne
  have hlast : ∃ last, c.v.getLast? = some last := by
    cases hl : c.v.getLast? with
    | none => exact absurd (List.getLast?_eq_none_iff.mp hl) hne
    | some last => exact ⟨last, rfl⟩
  refine ⟨hres, hread, hlast, ?_, ?_, ?_⟩
  · intro x y z
    exact ⟨_, rfl, List.getLast?_concat c.v⟩
  · intro cb c2 hcb hs
    by_cases hfv : ∃ vi2 ni2 ti2, cb = .faceVertex vi2 ni2 ti2
    · obtain ⟨vi2, ni2, ti2, rfl⟩ := hfv
      obtain ⟨c1, idx, ha, hv, _⟩ := consumeFaceVertex_state c vi2 ni2 ti2 c2 hs
      rw [hv]
      rcases assemble_cases c _ c1 idx ha with ⟨_, rfl⟩ | ⟨_, _, p, n, t, _, _, _, rfl⟩ <;> rfl
    · have hcb2 : ∀ vi2 ni2 ti2, cb ≠ .faceVertex vi2 ni2 ti2 :=
        fun vi2 ni2 ti2 he => hfv ⟨vi2, ni2, ti2, he⟩
      exact (step_other c cb c2 hcb2 hs).2.2.2.2.2.2.2.2.2 hcb
  · intro n t hnew hn ht
    obtain ⟨last, hl⟩ := hlast
    have hp : readAt c.v (c.resolve (-1) ni ti).v = some last := by rw [hread, hl]
    have ha := assemble_new c (c.resolve (-1) ni ti) last n t hnew hp hn ht
    simp only [consumeFaceVertex, ha]
    rcases pushFaceVertex_cases
        { c with
          vertex_map := c.vertex_map ++ [(c.resolve (-1) ni ti, (c.positions.length : Int))],
          positions := c.positions ++ [last],
          normals := c.normals ++ [n],
          texcoords := c.texcoords ++ [t] } (c.positions.length : Int)
      with ⟨_, hthrown⟩ | ⟨_, hdone⟩ | ⟨hneg, _⟩
    · rw [hthrown]
      exact ⟨_, last, hl, rfl, rfl⟩
    · rw [hdone]
      exact ⟨_, last, hl, rfl, rfl⟩
    · have := hinv.num_nonneg
      have hneg2 : c.num_face_vertices < 0 := hneg
      omega

theorem negative_index_resolution_witness :
    (create (Mathlib.Vector.replicate 7 0) : OBJConsumer Int).run sampleSevenCallbacks
      = .done sampleSeven [] ∧
    sampleSeven.v ≠ [] ∧
    ((sampleSeven.resolve (-1) 0 0).v = (sampleSeven.v.length : Int) - 1 ∧
    readAt sampleSeven.v (sampleSeven.resolve (-1) 0 0).v = sampleSeven.v.getLast? ∧
    (∃ last, sampleSeven.v.getLast? = some last) ∧
    (∀ x y z, ∃ c2, sampleSeven.consumeVertex x y z = .done c2 [] ∧
      c2.v.getLast? = some ⟨x, y, z⟩) ∧
    (∀ cb c2, (∀ x y z, cb ≠ .vertex x y z) → (sampleSeven.step cb).state? = some c2 →
      c2.v = sampleSeven.v) ∧
    (∀ n t, sampleSeven.vertex_map.lookup (sampleSeven.resolve (-1) 0 0) = none →
      readAt sampleSeven.vn (sampleSeven.resolve (-1) 0 0).n = some n →
      readAt sampleSeven.vt (sampleSeven.resolve (-1) 0 0).t = some t →
      ∃ c2 last, sampleSeven.v.getLast? = some last ∧
        (sampleSeven.consumeFaceVertex (-1) 0 0).state? = some c2 ∧
        c2.positions = sampleSeven.positions ++ [last])) :=
  ⟨by decide, by decide,
    negative_index_resolution (Mathlib.Vector.replicate 7 0) sampleSevenCallbacks sampleSeven []
      (by decide) (by decide) 0 0⟩

/-- C14: in every state that a callback sequence on a new consumer leaves,
`0 ≤ num_face_vertices ≤ 7`; it is 0 in a new consumer and after every `finishFace` that
returns; a `consumeFaceVertex` whose reads are inside their vectors is never undefined (its
write to `face_vertices` is inside the array); such a call throws the too-many-vertices error
exactly when `num_face_vertices` is 7, and when it returns, the count was below 7 and is one
larger afterwards. -/
theorem face_count_bound [Zero F] [One F] [Sub F]
    (garbage : Mathlib.Vector Int MAX_FACE_VERTICES) (cbs : List (Callback F))
    (c : OBJConsumer F)
    (hreach : ((create garbage : OBJConsumer F).run cbs).state? = some c) :
    (0 ≤ c.num_face_vertices ∧ c.num_face_vertices ≤ 7) ∧
    (create garbage : OBJConsumer F).num_face_vertices = 0 ∧
    (∀ c2 ws, c.finishFace = .done c2 ws → c2.num_face_vertices = 0) ∧
    (∀ vi ni ti, (c.assemble (c.resolve vi ni ti)).isSome →
      c.consumeFaceVertex vi ni ti ≠ .undefined) ∧
    (∀ vi ni ti, c.consumeFaceVertex vi ni ti ≠ .undefined →
      ((c.consumeFaceVertex vi ni ti).message? = some "this face has too many vertices"
        ↔ c.num_face_vertices = 7)) ∧
    (∀ vi ni ti c2 ws, c.consumeFaceVertex vi ni ti = .done c2 ws →
      c.num_face_vertices < 7 ∧ c2.num_face_vertices = c.num_face_vertices + 1) := by
  obtain ⟨hinv, _⟩ := inv_run cbs _ c (inv_create garbage) hreach
  have h0 := hinv.num_nonneg
  have h7 : c.num_face_vertices ≤ 7 := hinv.num_le
  have key : ∀ vi ni ti c1 idx, c.assemble (c.resolve vi ni ti) = some (c1, idx) →
      c.consumeFaceVertex vi ni ti = c1.pushFaceVertex idx ∧
      c1.num_face_vertices = c.num_face_vertices := by
    intro vi ni ti c1 idx ha
    refine ⟨by simp only [consumeFaceVertex, ha], ?_⟩
    exact (inv_assemble c hinv _ c1 idx ha).2.2.2.1
  refine ⟨⟨h0, h7⟩, rfl, ?_, ?_, ?_, ?_⟩
  · intro c2 ws hd
    rcases finishFace_outcomes c with ⟨_, ht⟩ | ⟨_, ⟨tris, hd2⟩ | hu⟩
    · rw [ht] at hd; simp at hd
    · rw [hd2] at hd
      simp only [Outcome.done.injEq] at hd
      rw [← hd.1]
    · rw [hu] at hd; simp at hd
  · intro vi ni ti hsome
    obtain ⟨r, ha⟩ := Option.isSome_iff_exists.mp hsome
    obtain ⟨c1, idx⟩ := r
    obtain ⟨he, hnum⟩ := key vi ni ti c1 idx ha
    rw [he]
    rcases pushFaceVertex_cases c1 idx with ⟨_, ht⟩ | ⟨_, hd⟩ | ⟨hneg, _⟩
    · rw [ht]; simp
    · rw [hd]; simp
    · omega
  · intro vi ni ti hdef
    cases ha : c.assemble (c.resolve vi ni ti) with
    | none => exact absurd (by simp only [consumeFaceVertex, ha]) hdef
    | some r =>
      obtain ⟨c1, idx⟩ := r
      obtain ⟨he, hnum⟩ := key vi ni ti c1 idx ha
      rw [he]
      rcases pushFaceVertex_cases c1 idx with ⟨hge, ht⟩ | ⟨hr, hd⟩ | ⟨hneg, _⟩
      · rw [ht]
        have hge2 : c1.num_face_vertices ≥ 7 := hge
        simp only [Outcome.message?, true_iff]
        omega
      · rw [hd]
        have hlt : c1.num_face_vertices < 7 := hr.2
        simp only [Outcome.message?, false_iff, reduceCtorEq]
        omega
      · omega
  · intro vi ni ti c2 ws hd
    cases ha : c.assemble (c.resolve vi ni ti) with
    | none => simp [consumeFaceVertex, ha] at hd
    | some r =>
      obtain ⟨c1, idx⟩ := r
      obtain ⟨he, hnum⟩ := key vi ni ti c1 idx ha
      rw [he] at hd
      rcases pushFaceVertex_cases c1 idx with ⟨_, ht⟩ | ⟨hr, hd2⟩ | ⟨_, hu⟩
      · rw [ht] at hd; simp at hd
      · rw [hd2] at hd
        simp only [Outcome.done.injEq] at hd
        have hlt : c1.num_face_vertices < 7 := hr.2
        refine ⟨by omega, ?_⟩
        rw [← hd.1, ← hnum]
      · rw [hu] at hd; simp at hd

theorem face_count_bound_witness :
    ((create (Mathlib.Vector.replicate 7 0) : OBJConsumer Int).run sampleSevenCallbacks).state?
      = some sampleSeven ∧
    ((0 ≤ sampleSeven.num_face_vertices ∧ sampleSeven.num_face_vertices ≤ 7) ∧
    (create (Mathlib.Vector.replicate 7 0) : OBJConsumer Int).num_face_vertices = 0 ∧
    (∀ c2 ws, sampleSeven.finishFace = .done c2 ws → c2.num_face_vertices = 0) ∧
    (∀ vi ni ti, (sampleSeven.assemble (sampleSeven.resolve vi ni ti)).isSome →
      sampleSeven.consumeFaceVertex vi ni ti ≠ .undefined) ∧
    (∀ vi ni ti, sampleSeven.consumeFaceVertex vi ni ti ≠ .undefined →
      ((sampleSeven.consumeFaceVertex vi ni ti).message?
          = some "this face has too many vertices"
        ↔ sampleSeven.num_face_vertices = 7)) ∧
    (∀ vi ni ti c2 ws, sampleSeven.consumeFaceVertex vi ni ti = .done c2 ws →
      sampleSeven.num_face_vertices < 7 ∧
      c2.num_face_vertices = sampleSeven.num_face_vertices + 1)) :=
  ⟨by decide,
    face_count_bound (Mathlib.Vector.replicate 7 0) sampleSevenCallbacks sampleSeven
      (by decide)⟩

theorem readAt_append {α : Type} (xs e : List α) (i : Int) (a : α)
    (h : readAt xs i = some a) : readAt (xs ++ e) i = some a := by
  unfold readAt at h ⊢
  by_cases h0 : 0 ≤ i
  · simp only [h0, if_true] at h ⊢
    have hlt := (List.getElem?_eq_some.mp h).1
    rw [List.getElem?_append_left hlt]
    exact h
  · simp [h0] at h

theorem readAt_length_append {α : Type} (xs : List α) (a : α) (n : Nat)
    (hn : xs.length = n) : readAt (xs ++ [a]) (n : Int) = some a := by
  subst hn
  simp [readAt]

/-- `Assembled` survives a change that keeps the vertex map and the assembled vectors and at
most appends to the raw lists. -/
theorem assembled_frame (c c2 : OBJConsumer F) (h : c.Assembled)
    (hm : c2.vertex_map = c.vertex_map) (hp : c2.positions = c.positions)
    (hn : c2.normals = c.normals) (ht : c2.texcoords = c.texcoords)
    (hv : ∃ e, c2.v = c.v ++ e) (hvn : ∃ e, c2.vn = c.vn ++ e)
    (hvt : ∃ e, c2.vt = c.vt ++ e) : c2.Assembled := by
  obtain ⟨e1, hv⟩ := hv
  obtain ⟨e2, hvn⟩ := hvn
  obtain ⟨e3, hvt⟩ := hvt
  intro k i hmem
  rw [hm] at hmem
  obtain ⟨p, n, t, h1, h2, h3, h4, h5, h6⟩ := h k i hmem
  refine ⟨p, n, t, ?_, ?_, ?_, ?_, ?_, ?_⟩
  · rw [hv]; exact readAt_append _ _ _ _ h1
  · rw [hvn]; exact readAt_append _ _ _ _ h2
  · rw [hvt]; exact readAt_append _ _ _ _ h3
  · rw [hp]; exact h4
  · rw [hn]; exact h5
  · rw [ht]; exact h6

theorem assembled_assemble [Zero F] (c : OBJConsumer F) (hinv : c.Inv) (h : c.Assembled)
    (key : face_vertex_t) (c1 : OBJConsumer F) (idx : Int)
    (ha : c.assemble key = some (c1, idx)) : c1.Assembled := by
  rcases assemble_cases c key c1 idx ha with ⟨_, rfl⟩ | ⟨_, _, p, n, t, hp, hn, ht, rfl⟩
  · exact h
  · intro k i hmem
    have hmem2 : (k, i) ∈ c.vertex_map ++ [(key, (c.positions.length : Int))] := hmem
    rw [List.mem_append, List.mem_singleton] at hmem2
    rcases hmem2 with hold | hnew
    · obtain ⟨p1, n1, t1, h1, h2, h3, h4, h5, h6⟩ := h k i hold
      exact ⟨p1, n1, t1, h1, h2, h3, readAt_append _ _ _ _ h4, readAt_append _ _ _ _ h5,
        readAt_append _ _ _ _ h6⟩
    · simp only [Prod.mk.injEq] at hnew
      obtain ⟨rfl, rfl⟩ := hnew
      exact ⟨p, n, t, hp, hn, ht, readAt_length_append _ _ _ rfl,
        readAt_length_append _ _ _ (by rw [hinv.len_normals, hinv.len_positions]),
        readAt_length_append _ _ _ (by rw [hinv.len_texcoords, hinv.len_positions])⟩

theorem assembled_step [Zero F] [One F] [Sub F] (c : OBJConsumer F) (hinv : c.Inv)
    (h : c.Assembled) (cb : Callback F) (c2 : OBJConsumer F)
    (hs : (c.step cb).state? = some c2) : c2.Assembled := by
  by_cases hfv : ∃ vi ni ti, cb = .faceVertex vi ni ti
  · obtain ⟨vi, ni, ti, rfl⟩ := hfv
    obtain ⟨c1, idx, ha, hv, hvn, hvt, hm, hp, hn, ht, _⟩ :=
      consumeFaceVertex_state c vi ni ti c2 hs
    exact assembled_frame c1 c2 (assembled_assemble c hinv h _ c1 idx ha) hm hp hn ht
      ⟨[], by simp [hv]⟩ ⟨[], by simp [hvn]⟩ ⟨[], by simp [hvt]⟩
  · have hcb : ∀ vi ni ti, cb ≠ .faceVertex vi ni ti :=
      fun vi ni ti he => hfv ⟨vi, ni, ti, he⟩
    obtain ⟨hm, hp, hn, ht, _, _, hv, hvn, hvt, _⟩ := step_other c cb c2 hcb hs
    exact assembled_frame c c2 h hm hp hn ht hv hvn hvt

theorem assembled_run [Zero F] [One F] [Sub F] (cbs : List (Callback F)) :
    ∀ (c c2 : OBJConsumer F), c.Inv → c.Assembled → (c.run cbs).state? = some c2 →
      c2.Assembled := by
  induction cbs with
  | nil =>
    intro c c2 _ h hs
    simp only [run, Outcome.state?, Option.some.injEq] at hs
    subst hs
    exact h
  | cons cb rest ih =>
    intro c c2 hinv h hs
    rw [run_cons_state] at hs
    cases hstep : c.step cb with
    | done c1 ws =>
      simp only [hstep] at hs
      have hs1 : (c.step cb).state? = some c1 := by rw [hstep]; rfl
      exact ih c1 c2 (inv_step c hinv cb c1 hs1).1 (assembled_step c hinv h cb c1 hs1) hs
    | thrown c1 ws msg =>
      simp only [hstep, Option.some.injEq] at hs
      subst hs
      exact assembled_step c hinv h cb c1 (by rw [hstep]; rfl)
    | undefined =>
      simp [hstep] at hs

theorem assembled_create [Zero F] (garbage : Mathlib.Vector Int MAX_FACE_VERTICES) :
    (create garbage : OBJConsumer F).Assembled := by
  intro k i hmem
  simp [create] at hmem

/-- C15: in every state that a callback sequence on a new consumer leaves, every entry
`(key, i)` of the vertex map has `0 ≤ i < size(positions)`, and `positions[i]`, `normals[i]`,
`texcoords[i]` are the raw entries `v[key.v]`, `vn[key.n]`, `vt[key.t]` (all six reads inside
their vectors); the three assembled vectors are equally long. -/
theorem assembled_correspondence [Zero F] [One F] [Sub F]
    (garbage : Mathlib.Vector Int MAX_FACE_VERTICES) (cbs : List (Callback F))
    (c : OBJConsumer F)
    (hreach : ((create garbage : OBJConsumer F).run cbs).state? = some c) :
    (∀ k i, (k, i) ∈ c.vertex_map →
      (0 ≤ i ∧ i < (c.positions.length : Int)) ∧
      ∃ p n t, readAt c.positions i = some p ∧ readAt c.v k.v = some p ∧
        readAt c.normals i = some n ∧ readAt c.vn k.n = some n ∧
        readAt c.texcoords i = some t ∧ readAt c.vt k.t = some t) ∧
    c.positions.length = c.normals.length ∧ c.normals.length = c.texcoords.length := by
  obtain ⟨hinv, _⟩ := inv_run cbs _ c (inv_create garbage) hreach
  have hasm := assembled_run cbs _ c (inv_create garbage) (assembled_create garbage) hreach
  refine ⟨?_, by rw [hinv.len_positions, hinv.len_normals],
    by rw [hinv.len_normals, hinv.len_texcoords]⟩
  intro k i hmem
  obtain ⟨p, n, t, h1, h2, h3, h4, h5, h6⟩ := hasm k i hmem
  exact ⟨map_value_range c hinv k i hmem, p, n, t, h4, h1, h5, h2, h6, h3⟩

theorem assembled_correspondence_witness :
    ((create (Mathlib.Vector.replicate 7 0) : OBJConsumer Int).run sampleQuadCallbacks).state?
      = some sampleQuadDone ∧
    ((∀ k i, (k, i) ∈ sampleQuadDone.vertex_map →
      (0 ≤ i ∧ i < (sampleQuadDone.positions.length : Int)) ∧
      ∃ p n t, readAt sampleQuadDone.positions i = some p ∧
        readAt sampleQuadDone.v k.v = some p ∧
        readAt sampleQuadDone.normals i = some n ∧ readAt sampleQuadDone.vn k.n = some n ∧
        readAt sampleQuadDone.texcoords i = some t ∧ readAt sampleQuadDone.vt k.t = some t) ∧
    sampleQuadDone.positions.length = sampleQuadDone.normals.length ∧
    sampleQuadDone.normals.length = sampleQuadDone.texcoords.length) :=
  ⟨by decide,
    assembled_correspondence (Mathlib.Vector.replicate 7 0) sampleQuadCallbacks sampleQuadDone
      (by decide)⟩

theorem resolvedKeys_faceVertex [One F] [Sub F] (c : OBJConsumer F) (vi ni ti : Int)
    (rest : List (Callback F)) :
    resolvedKeys c (.faceVertex vi ni ti :: rest) =
      match c.step (.faceVertex vi ni ti) with
      | .done c1 _ => c.resolve vi ni ti :: resolvedKeys c1 rest
      | _ => [c.resolve vi ni ti] := by
  simp only [resolvedKeys]
  split <;> simp

theorem resolvedKeys_other [One F] [Sub F] (c : OBJConsumer F) (cb : Callback F)
    (rest : List (Callback F)) (hcb : ∀ vi ni ti, cb ≠ .faceVertex vi ni ti) :
    resolvedKeys c (cb :: rest) =
      match c.step cb with
      | .done c1 _ => resolvedKeys c1 rest
      | _ => [] := by
  cases cb <;>
    first
    | exact absurd rfl (hcb _ _ _)
    | (simp only [resolvedKeys]; split <;> simp)

/-- The keys of the vertex map after a `consumeFaceVertex` that leaves a consumer: the keys
before, with the resolved key appended when it was not among them. -/
theorem consumeFaceVertex_keys (c : OBJConsumer F) (vi ni ti : Int) (c2 : OBJConsumer F)
    (hs : (c.consumeFaceVertex vi ni ti).state? = some c2) :
    c2.vertex_map.map Prod.fst =
      if c.resolve vi ni ti ∈ c.vertex_map.map Prod.fst then c.vertex_map.map Prod.fst
      else c.vertex_map.map Prod.fst ++ [c.resolve vi ni ti] := by
  obtain ⟨c1, idx, ha, _, _, _, hm, _⟩ := consumeFaceVertex_state c vi ni ti c2 hs
  rw [hm]
  rcases assemble_cases c _ c1 idx ha with ⟨hl, hc⟩ | ⟨hl, _, p, n, t, _, _, _, hc⟩
  · have hmem : c.resolve vi ni ti ∈ c.vertex_map.map Prod.fst :=
      List.mem_map.mpr ⟨_, lookup_some_mem _ _ _ hl, rfl⟩
    rw [if_pos hmem, hc]
  · rw [if_neg (lookup_none_not_mem _ _ hl), hc]
    simp

theorem keys_run [One F] [Sub F] (cbs : List (Callback F)) :
    ∀ (c c2 : OBJConsumer F), (c.run cbs).state? = some c2 →
      c2.vertex_map.map Prod.fst
        = firstSeen (c.vertex_map.map Prod.fst) (resolvedKeys c cbs) := by
  induction cbs with
  | nil =>
    intro c c2 hs
    simp only [run, Outcome.state?, Option.some.injEq] at hs
    subst hs
    rfl
  | cons cb rest ih =>
    intro c c2 hs
    rw [run_cons_state] at hs
    by_cases hfv : ∃ vi ni ti, cb = .faceVertex vi ni ti
    · obtain ⟨vi, ni, ti, rfl⟩ := hfv
      rw [resolvedKeys_faceVertex]
      cases hstep : c.step (.faceVertex vi ni ti) with
      | done c1 ws =>
        simp only [hstep] at hs
        have hk := consumeFaceVertex_keys c vi ni ti c1 (by
          have : c.consumeFaceVertex vi ni ti = c.step (.faceVertex vi ni ti) := rfl
          rw [this, hstep]; rfl)
        rw [ih c1 c2 hs, hk]
        simp only [firstSeen]
        split_ifs <;> rfl
      | thrown c1 ws msg =>
        simp only [hstep, Option.some.injEq] at hs
        subst hs
        have hk := consumeFaceVertex_keys c vi ni ti c1 (by
          have : c.consumeFaceVertex vi ni ti = c.step (.faceVertex vi ni ti) := rfl
          rw [this, hstep]; rfl)
        rw [hk]
        simp only [firstSeen]
      | undefined =>
        simp [hstep] at hs
    · have hcb : ∀ vi ni ti, cb ≠ .faceVertex vi ni ti :=
        fun vi ni ti he => hfv ⟨vi, ni, ti, he⟩
      rw [resolvedKeys_other c cb rest hcb]
      cases hstep : c.step cb with
      | done c1 ws =>
        simp only [hstep] at hs
        have hm := (step_other c cb c1 hcb (by rw [hstep]; rfl)).1
        rw [ih c1 c2 hs, hm]
      | thrown c1 ws msg =>
        simp only [hstep, Option.some.injEq] at hs
        subst hs
        have hm := (step_other c cb c1 hcb (by rw [hstep]; rfl)).1
        rw [hm]
        rfl
      | undefined =>
        simp [hstep] at hs

theorem lookup_of_mem (m : List (face_vertex_t × Int)) (k : face_vertex_t) (i : Int)
    (hnd : (m.map Prod.fst).Nodup) (hmem : (k, i) ∈ m) : m.lookup k = some i := by
  induction m with
  | nil => simp at hmem
  | cons e rest ih =>
    obtain ⟨k1, i1⟩ := e
    simp only [List.map_cons, List.nodup_cons] at hnd
    obtain ⟨hnot, hnd2⟩ := hnd
    simp only [List.mem_cons, Prod.mk.injEq] at hmem
    rcases hmem with ⟨rfl, rfl⟩ | hin
    · simp [List.lookup]
    · have hne : k ≠ k1 := by
        intro he
        subst he
        exact hnot (List.mem_map.mpr ⟨(k, i), hin, rfl⟩)
      have hb : (k == k1) = false := by simpa using hne
      simp only [List.lookup, hb]
      exact ih hnd2 hin

theorem entry_of_key_index (m : List (face_vertex_t × Int)) (n : Nat)
    (hvals : m.map Prod.snd = (List.range n).map (fun i : Nat => (i : Int)))
    (k : Nat) (key : face_vertex_t) (hk : (m.map Prod.fst)[k]? = some key) :
    (key, (k : Int)) ∈ m := by
  rw [List.getElem?_map] at hk
  cases he : m[k]? with
  | none => simp [he] at hk
  | some e =>
    simp only [he, Option.map_some', Option.some.injEq] at hk
    have hlt : k < m.length := (List.getElem?_eq_some.mp he).1
    have hsnd : (m.map Prod.snd)[k]? = some e.2 := by
      rw [List.getElem?_map, he]; rfl
    have hn : m.length = n := by
      have := congrArg List.length hvals
      simpa using this
    rw [hvals, List.getElem?_map, List.getElem?_range (by omega)] at hsnd
    simp only [Option.map_some', Option.some.injEq] at hsnd
    have hmem : e ∈ m := List.getElem?_mem he
    have : e = (key, (k : Int)) := Prod.ext hk hsnd.symm
    rw [← this]
    exact hmem

/-- C16: in a state that a callback sequence on a new consumer leaves, the keys of the vertex
map, in insertion order, are the pairwise different resolved keys of the `consumeFaceVertex`
calls in order of first occurrence, and the `k`-th of them has the value `k`: the values are
`0, ..., size(positions) - 1`, each held by one key.  A further `consumeFaceVertex` whose
resolved key is in the map leaves the map and the three assembled vectors unchanged. -/
theorem first_seen_index_assignment [Zero F] [One F] [Sub F]
    (garbage : Mathlib.Vector Int MAX_FACE_VERTICES) (cbs : List (Callback F))
    (c : OBJConsumer F)
    (hreach : ((create garbage : OBJConsumer F).run cbs).state? = some c) :
    c.vertex_map.map Prod.fst
      = firstSeen [] (resolvedKeys (create garbage : OBJConsumer F) cbs) ∧
    c.vertex_map.map Prod.snd
      = (List.range c.positions.length).map (fun k : Nat => (k : Int)) ∧
    (∀ (k : Nat) (key : face_vertex_t),
      (firstSeen [] (resolvedKeys (create garbage : OBJConsumer F) cbs))[k]? = some key →
      c.vertex_map.lookup key = some (k : Int)) ∧
    (c.vertex_map.map Prod.fst).Nodup ∧
    (∀ k1 k2 i, (k1, i) ∈ c.vertex_map → (k2, i) ∈ c.vertex_map → k1 = k2) ∧
    (∀ vi ni ti idx c2, c.vertex_map.lookup (c.resolve vi ni ti) = some idx →
      (c.consumeFaceVertex vi ni ti).state? = some c2 →
      c2.vertex_map = c.vertex_map ∧ c2.positions = c.positions ∧
      c2.normals = c.normals ∧ c2.texcoords = c.texcoords) := by
  obtain ⟨hinv, _⟩ := inv_run cbs _ c (inv_create garbage) hreach
  have hkeys := keys_run cbs (create garbage : OBJConsumer F) c hreach
  have hkeys2 : c.vertex_map.map Prod.fst
      = firstSeen [] (resolvedKeys (create garbage : OBJConsumer F) cbs) := hkeys
  have hvals : c.vertex_map.map Prod.snd
      = (List.range c.positions.length).map (fun k : Nat => (k : Int)) := by
    rw [hinv.len_positions]; exact hinv.map_values
  refine ⟨hkeys2, hvals, ?_, hinv.map_keys, ?_, ?_⟩
  · intro k key hk
    rw [← hkeys2] at hk
    exact lookup_of_mem _ _ _ hinv.map_keys
      (entry_of_key_index c.vertex_map c.positions.length hvals k key hk)
  · intro k1 k2 i h1 h2
    exact (map_entries_agree c hinv k1 k2 i i h1 h2).mp rfl
  · intro vi ni ti idx c2 hl hs
    obtain ⟨c1, idx1, ha, _, _, _, hm, hp, hn, ht, _⟩ :=
      consumeFaceVertex_state c vi ni ti c2 hs
    rcases assemble_cases c _ c1 idx1 ha with ⟨_, hc⟩ | ⟨hnone, _⟩
    · rw [hm, hp, hn, ht, hc]
      exact ⟨rfl, rfl, rfl, rfl⟩
    · rw [hl] at hnone
      simp at hnone

theorem first_seen_index_assignment_witness :
    ((create (Mathlib.Vector.replicate 7 0) : OBJConsumer Int).run sampleQuadCallbacks).state?
      = some sampleQuadDone ∧
    (sampleQuadDone.vertex_map.map Prod.fst
      = firstSeen [] (resolvedKeys
          (create (Mathlib.Vector.replicate 7 0) : OBJConsumer Int) sampleQuadCallbacks) ∧
    sampleQuadDone.vertex_map.map Prod.snd
      = (List.range sampleQuadDone.positions.length).map (fun k : Nat => (k : Int)) ∧
    (∀ (k : Nat) (key : face_vertex_t),
      (firstSeen [] (resolvedKeys
          (create (Mathlib.Vector.replicate 7 0) : OBJConsumer Int) sampleQuadCallbacks))[k]?
        = some key →
      sampleQuadDone.vertex_map.lookup key = some (k : Int)) ∧
    (sampleQuadDone.vertex_map.map Prod.fst).Nodup ∧
    (∀ k1 k2 i, (k1, i) ∈ sampleQuadDone.vertex_map → (k2, i) ∈ sampleQuadDone.vertex_map →
      k1 = k2) ∧
    (∀ vi ni ti idx c2,
      sampleQuadDone.vertex_map.lookup (sampleQuadDone.resolve vi ni ti) = some idx →
      (sampleQuadDone.consumeFaceVertex vi ni ti).state? = some c2 →
      c2.vertex_map = sampleQuadDone.vertex_map ∧ c2.positions = sampleQuadDone.positions ∧
      c2.normals = sampleQuadDone.normals ∧ c2.texcoords = sampleQuadDone.texcoords)) :=
  ⟨by decide,
    first_seen_index_assignment (Mathlib.Vector.replicate 7 0) sampleQuadCallbacks
      sampleQuadDone (by decide)⟩

end OBJConsumer
